import Mathlib

/-!
# Smart Redirect: rule matching, request interception and rule editing

A shallow embedding of the parts of `background.js`, `options.js` and `popup.js` that
decide which navigation is redirected and how the rule list changes (create, edit,
delete, toggle, clear, export, import, quick-add).

* JavaScript strings are lists of characters (`JsString`).
* A stored rule is the record `Rule`; a field that the scripts read without checking
  and that imported data may lack (`source`, `destination`, `matchType`) is an `Option`.
* A `try` block is a function into `Except JsError`; its `catch` is the function that
  maps the failure to the handler's value.
* The host's `URL` constructor is not part of the repository: every definition that
  calls `new URL(x)` takes `urlHostname`, the hostname of the parsed URL, or `none`
  when the constructor throws.
* The host's method `toLowerCase` is a parameter as well: every definition that calls it
  takes `toLowerCase`, and the theorems hold for every such function. Closed examples
  are evaluated with `asciiToLowerCase` and `simpleUrlHostname`, which agree with the
  host on the ASCII inputs used.
-/

namespace SiteBlocker

/-! ## Strings -/

/-- A JavaScript string, as the list of its characters. -/
abbrev JsString := List Char

/-- A stand-in for the host's method `toLowerCase`, used to evaluate the definitions on
examples: it lowercases the ASCII letters and leaves every other character as it is,
which is what the method does on ASCII text. -/
def asciiToLowerCase (s : JsString) : JsString := s.map Char.toLower

/-- The method `s.startsWith(p)`. -/
def startsWith (s p : JsString) : Bool := p.isPrefixOf s

/-- The method `s.endsWith(p)`. -/
def endsWith (s p : JsString) : Bool := p.isSuffixOf s

/-- The method `s.includes(p)`: `p` occurs in `s` at some position. -/
def includes : JsString → JsString → Bool
  | [], p => p.isPrefixOf []
  | c :: s, p => p.isPrefixOf (c :: s) || includes s p

/-- The property `length`: the number of UTF-16 code units of the string. -/
def jsLength (s : JsString) : Nat :=
  (s.map fun c => if c.toNat < 65536 then 1 else 2).sum

/-- White space and line terminators, the characters that `trim` removes. -/
def isWhiteSpace (c : Char) : Bool :=
  let n := c.toNat
  n = 9 || n = 10 || n = 11 || n = 12 || n = 13 || n = 32 || n = 160 || n = 5760 ||
  (8192 ≤ n && n ≤ 8202) || n = 8232 || n = 8233 || n = 8239 || n = 8287 ||
  n = 12288 || n = 65279

/-- The method `trim`: white space removed at both ends. -/
def trim (s : JsString) : JsString :=
  (s.dropWhile isWhiteSpace).rdropWhile isWhiteSpace

/-! ## Data model -/

/-- What a script throws: `new URL(x)` on an unparseable `x`, or a method call on a
property that is `undefined`. -/
inductive JsError where
  | invalidUrl
  | typeError
deriving DecidableEq, Repr

/-- A redirect rule as held in `redirectRules` / `currentRules`. `source`, `destination`
and `matchType` are `none` when the stored object has no such property. -/
structure Rule where
  id : JsString
  source : Option JsString
  destination : Option JsString
  matchType : Option JsString
  enabled : Bool
  created : JsString
deriving DecidableEq, Repr

/-! ## background.js: the matcher -/

/-- The `for (const rule of redirectRules)` loop of `findMatchingRule`, for an already
lowercased `hostname`. The call `rule.source.toLowerCase()` throws when the rule has
no `source`. -/
def matchLoop (toLowerCase : JsString → JsString)
    (hostname : JsString) : List Rule → Except JsError (Option Rule)
  | [] => .ok none
  | rule :: rest =>
    if !rule.enabled then matchLoop toLowerCase hostname rest
    else
      match rule.source with
      | none => .error .typeError
      | some source =>
        let sourcePattern := toLowerCase source
        if rule.matchType = some "exact".toList then
          if hostname = sourcePattern then .ok (some rule) else matchLoop toLowerCase hostname rest
        else if rule.matchType = some "contains".toList then
          if includes hostname sourcePattern then .ok (some rule) else matchLoop toLowerCase
              hostname rest
        else if rule.matchType = some "startswith".toList then
          if startsWith hostname sourcePattern then .ok (some rule)
          else matchLoop toLowerCase hostname rest
        else
          if hostname = sourcePattern then .ok (some rule) else matchLoop toLowerCase hostname rest

/-- The match-type predicate of `findMatchingRule` for one rule that has a `source`,
against an already lowercased `hostname`: the condition under which the loop body
reaches `return rule`. A rule without a `source` satisfies no predicate. -/
def predicateHolds (toLowerCase : JsString → JsString)
    (hostname : JsString) (rule : Rule) : Bool :=
  match rule.source with
  | none => false
  | some source =>
    let sourcePattern := toLowerCase source
    if rule.matchType = some "exact".toList then hostname = sourcePattern
    else if rule.matchType = some "contains".toList then includes hostname sourcePattern
    else if rule.matchType = some "startswith".toList then startsWith hostname sourcePattern
    else hostname = sourcePattern

/-- The `try` block of `findMatchingRule`. -/
def findMatchingRuleTry (toLowerCase : JsString → JsString)
    (urlHostname : JsString → Option JsString)
    (redirectRules : List Rule) (url : JsString) : Except JsError (Option Rule) :=
  match urlHostname url with
  | none => .error .invalidUrl
  | some hostname => matchLoop toLowerCase (toLowerCase hostname) redirectRules

/-- The function `findMatchingRule(url)` of `background.js`: the `try` block, with
`catch (error) { return null; }`. -/
def findMatchingRule (toLowerCase : JsString → JsString)
    (urlHostname : JsString → Option JsString)
    (redirectRules : List Rule) (url : JsString) : Option Rule :=
  match findMatchingRuleTry toLowerCase urlHostname redirectRules url with
  | .ok result => result
  | .error _ => none

/-! ## background.js: the interceptor -/

/-- What `handleWebRequest` returns: `undefined` (normal loading) or
`{ redirectUrl: matchingRule.destination }`. -/
inductive BlockingResponse where
  | allow
  | redirect (redirectUrl : Option JsString)
deriving DecidableEq, Repr

/-- Truthiness of the cached `extensionEnabled`; `none` is `undefined`. -/
def truthy : Option Bool → Bool
  | some true => true
  | _ => false

/-- The function `handleWebRequest(details)`, with the two globals it reads. -/
def handleWebRequest (toLowerCase : JsString → JsString)
    (urlHostname : JsString → Option JsString)
    (extensionEnabled : Option Bool) (redirectRules : List Rule)
    (requestUrl : JsString) : BlockingResponse :=
  if !truthy extensionEnabled then .allow
  else if !startsWith requestUrl "http://".toList && !startsWith requestUrl "https://".toList
  then .allow
  else
    match findMatchingRule toLowerCase urlHostname redirectRules requestUrl with
    | some matchingRule => .redirect matchingRule.destination
    | none => .allow

/-! ## A stand-in for the host's URL parser -/

/-- The text after the first `://` of a string, if there is one. -/
def afterScheme : JsString → Option JsString
  | [] => none
  | c :: s =>
    if startsWith (c :: s) "://".toList then some ((c :: s).drop 3) else afterScheme s

/-- A stand-in for the host's URL parser, used to evaluate the definitions on examples:
for an input `scheme://host` followed by nothing or by a port, path, query or
fragment, the text between `://` and the next `:`, `/`, `?` or `#`; an input without
`://`, or with nothing before or after it, is rejected. -/
def simpleUrlHostname (u : JsString) : Option JsString :=
  match u with
  | [] => none
  | _ :: rest =>
    match afterScheme rest with
    | none => none
    | some s =>
      let host := s.takeWhile fun c => !(c = ':' || c = '/' || c = '?' || c = '#')
      if host.isEmpty then none else some host

/-! ## options.js: normalising and validating the form input -/

/-- The call `cleaned.replace(/^(https?:\/\/)?(www\.)?/, '')`: one leading `http://` or
`https://` is removed when present, and then one leading `www.` when present. -/
def removeLeadingSchemeAndWww (s : JsString) : JsString :=
  let afterScheme :=
    if startsWith s "https://".toList then s.drop 8
    else if startsWith s "http://".toList then s.drop 7
    else s
  if startsWith afterScheme "www.".toList then afterScheme.drop 4 else afterScheme

/-- The call `cleaned.replace(/\/+$/, '')`: the run of slashes at the end is removed. -/
def removeTrailingSlashes (s : JsString) : JsString :=
  s.rdropWhile fun c => c = '/'

/-- The function `cleanSourceUrl(sourceUrl)` of `options.js`. -/
def cleanSourceUrl (toLowerCase : JsString → JsString) (sourceUrl : JsString) : JsString :=
  let cleaned := trim (toLowerCase sourceUrl)
  let cleaned := removeLeadingSchemeAndWww cleaned
  removeTrailingSlashes cleaned

/-- The function `validateInputs(sourceUrl, destinationUrl)` of `options.js`; the status
messages are left out. `new URL(destinationUrl)` throws exactly when `urlHostname`
gives `none`. -/
def validateInputs (urlHostname : JsString → Option JsString)
    (sourceUrl destinationUrl : JsString) : Bool :=
  if sourceUrl.isEmpty || jsLength sourceUrl < 3 then false
  else if destinationUrl.isEmpty then false
  else if (urlHostname destinationUrl).isNone then false
  else if includes sourceUrl "://".toList then false
  else true

/-! ## options.js: creating a rule -/

/-- The values of the three form fields when the form is submitted. -/
structure FormValues where
  sourceUrl : JsString
  destinationUrl : JsString
  matchType : JsString
deriving DecidableEq, Repr

/-- How a run of `handleAddRule` ends: validation failed, the duplicate message was
shown, the rule was pushed, or the handler threw. -/
inductive AddOutcome where
  | invalid
  | duplicate
  | added
  | threw (error : JsError)
deriving DecidableEq, Repr

/-- The call `currentRules.find(rule => rule.source.toLowerCase() ===
cleanedSource.toLowerCase() && rule.matchType === matchType)`; the callback throws on
a rule without a `source`. -/
def findExistingRule (toLowerCase : JsString → JsString) (cleanedSource matchType : JsString) :
    List Rule → Except JsError (Option Rule)
  | [] => .ok none
  | rule :: rest =>
    match rule.source with
    | none => .error .typeError
    | some source =>
      if toLowerCase source = toLowerCase cleanedSource && rule.matchType = some matchType
      then .ok (some rule)
      else findExistingRule toLowerCase cleanedSource matchType rest

/-- The function `handleAddRule(event)` of `options.js`, up to the push onto
`currentRules`: the outcome and the value of `currentRules` afterwards. `generatedId`
is what `generateRuleId()` returns and `now` what `new Date().toISOString()` returns. -/
def handleAddRule (toLowerCase : JsString → JsString)
    (urlHostname : JsString → Option JsString) (generatedId now : JsString)
    (currentRules : List Rule) (form : FormValues) : AddOutcome × List Rule :=
  let sourceUrl := trim form.sourceUrl
  let destinationUrl := trim form.destinationUrl
  let matchType := form.matchType
  if !validateInputs urlHostname sourceUrl destinationUrl then (.invalid, currentRules)
  else
    let cleanedSource := cleanSourceUrl toLowerCase sourceUrl
    match findExistingRule toLowerCase cleanedSource matchType currentRules with
    | .error e => (.threw e, currentRules)
    | .ok (some _) => (.duplicate, currentRules)
    | .ok none =>
      let newRule : Rule :=
        { id := generatedId
          source := some cleanedSource
          destination := some destinationUrl
          matchType := some matchType
          enabled := true
          created := now }
      (.added, currentRules ++ [newRule])

/-! ## Well-formedness of a rule list, and the pieces of `handleAddRule` -/

/-- Every rule of the list has a `source` property. -/
def allHaveSource (rules : List Rule) : Bool :=
  rules.all fun r => r.source.isSome

/-- Every enabled rule of the list has a `source` property. -/
def enabledHaveSource (rules : List Rule) : Bool :=
  rules.all fun r => !r.enabled || r.source.isSome

/-- The callback of the `find` call in `handleAddRule`, on a rule that has a `source`:
same lowercased source and same match type. A rule without a `source` is no duplicate
of anything. -/
def isDuplicateOf (toLowerCase : JsString → JsString)
    (cleanedSource matchType : JsString) (rule : Rule) : Bool :=
  match rule.source with
  | none => false
  | some source =>
    toLowerCase source = toLowerCase cleanedSource && rule.matchType = some matchType

/-- The rule object that `handleAddRule` builds for a form input. -/
def newRuleOf (toLowerCase : JsString → JsString)
    (generatedId now : JsString) (form : FormValues) : Rule :=
  { id := generatedId
    source := some (cleanSourceUrl toLowerCase (trim form.sourceUrl))
    destination := some (trim form.destinationUrl)
    matchType := some form.matchType
    enabled := true
    created := now }

/-! ## Example data -/

/-- The rule of the worked example: `old.com` to `https://new.com`, for a given match
type. -/
def exampleRule (matchType : String) : Rule :=
  { id := "rule_1".toList
    source := some "old.com".toList
    destination := some "https://new.com".toList
    matchType := some matchType.toList
    enabled := true
    created := "2024-01-01T00:00:00.000Z".toList }

/-- An enabled rule whose stored object has no `source` property, as `importRules`
leaves it when the imported entry has none. -/
def sourcelessRule : Rule :=
  { id := "rule_0".toList
    source := none
    destination := some "https://new.com".toList
    matchType := some "exact".toList
    enabled := true
    created := "2024-01-01T00:00:00.000Z".toList }

/-- An enabled `exact` rule whose `source` was imported with capital letters. -/
def capitalRule : Rule :=
  { id := "rule_2".toList
    source := some "OLD.com".toList
    destination := some "https://new.com".toList
    matchType := some "exact".toList
    enabled := true
    created := "2024-01-01T00:00:00.000Z".toList }

/-! ## popup.js: the matcher of the status panel -/

/-- The `switch (rule.matchType)` of the popup's `findMatchingRule`: whether the case
that the match type selects reaches `return rule`. -/
def Popup.switchReturns (hostname sourcePattern : JsString)
    (matchType : Option JsString) : Bool :=
  if matchType = some "exact".toList then hostname = sourcePattern
  else if matchType = some "contains".toList then includes hostname sourcePattern
  else if matchType = some "startswith".toList then startsWith hostname sourcePattern
  else hostname = sourcePattern

/-- The `for (const rule of currentRules)` loop of the popup's `findMatchingRule`. -/
def Popup.matchLoop (toLowerCase : JsString → JsString)
    (hostname : JsString) : List Rule → Except JsError (Option Rule)
  | [] => .ok none
  | rule :: rest =>
    if !rule.enabled then Popup.matchLoop toLowerCase hostname rest
    else
      match rule.source with
      | none => .error .typeError
      | some source =>
        if Popup.switchReturns hostname (toLowerCase source) rule.matchType
        then .ok (some rule)
        else Popup.matchLoop toLowerCase hostname rest

/-- The function `findMatchingRule(url)` of `popup.js`, with its
`catch (error) { return null; }`. -/
def Popup.findMatchingRule (toLowerCase : JsString → JsString)
    (urlHostname : JsString → Option JsString)
    (currentRules : List Rule) (url : JsString) : Option Rule :=
  match urlHostname url with
  | none => none
  | some hostname =>
    match Popup.matchLoop toLowerCase (toLowerCase hostname) currentRules with
    | .ok result => result
    | .error _ => none

/-! ## background.js: the cached enabled flag -/

/-- The `changes.extensionEnabled` branch of the `storage.onChanged` listener: the
cached flag becomes `changes.extensionEnabled.newValue`, which is `undefined` (`none`)
when the key was removed from the store. -/
def onExtensionEnabledChanged (newValue : Option Bool) : Option Bool := newValue

/-- The flag that `loadRedirectRules` caches for a store whose `extensionEnabled` is
`stored` (`none` when the key is absent): `result.extensionEnabled !== false`. -/
def loadedExtensionEnabled (stored : Option Bool) : Option Bool :=
  some (stored != some false)

/-! ## options.js: edit, delete, toggle, clear -/

/-- The function `editRule(ruleId)`: the rule whose fields are put into the form, and
`currentRules` afterwards. Nothing happens when no rule has the id. -/
def editRule (ruleId : JsString) (currentRules : List Rule) : Option Rule × List Rule :=
  match currentRules.find? fun r => r.id = ruleId with
  | none => (none, currentRules)
  | some rule => (some rule, currentRules.filter fun r => r.id ≠ ruleId)

/-- The form as `editRule` fills it from a rule whose `source`, `destination` and
`matchType` are strings. -/
def formOf (rule : Rule) : Option FormValues :=
  match rule.source, rule.destination, rule.matchType with
  | some source, some destination, some matchType =>
    some { sourceUrl := source, destinationUrl := destination, matchType := matchType }
  | _, _, _ => none

/-- The function `deleteRule(ruleId)`; `confirmed` is the answer to the dialog. -/
def deleteRule (ruleId : JsString) (confirmed : Bool) (currentRules : List Rule) :
    List Rule :=
  match currentRules.find? fun r => r.id = ruleId with
  | none => currentRules
  | some _ => if confirmed then currentRules.filter fun r => r.id ≠ ruleId else currentRules

/-- The function `toggleRule(ruleId, enabled)`: the first rule with the id gets the
flag. -/
def toggleRule (ruleId : JsString) (enabled : Bool) : List Rule → List Rule
  | [] => []
  | rule :: rest =>
    if rule.id = ruleId then { rule with enabled := enabled } :: rest
    else rule :: toggleRule ruleId enabled rest

/-- The function `clearAllRules()`; `confirmed` is the answer to the dialog. -/
def clearAllRules (confirmed : Bool) (currentRules : List Rule) : List Rule :=
  if currentRules.isEmpty then currentRules
  else if confirmed then [] else currentRules

/-- Edit followed by submitting the form as `editRule` filled it: the outcome of
`handleAddRule` and `currentRules` afterwards; `none` when no rule has the id or the
rule lacks one of the three form properties. -/
def editThenResubmit (toLowerCase : JsString → JsString)
    (urlHostname : JsString → Option JsString) (generatedId now : JsString)
    (ruleId : JsString) (currentRules : List Rule) : Option (AddOutcome × List Rule) :=
  match editRule ruleId currentRules with
  | (none, _) => none
  | (some rule, remaining) =>
    match formOf rule with
    | none => none
    | some form => some (handleAddRule toLowerCase urlHostname generatedId now remaining form)

/-! ## options.js: export and import -/

/-- An object of the `rules` array of an imported document, as `JSON.parse` gives it:
every property may be missing. -/
structure ImportedRule where
  id : Option JsString
  source : Option JsString
  destination : Option JsString
  matchType : Option JsString
  enabled : Option Bool
  created : Option JsString
deriving DecidableEq, Repr

/-- An element of the `rules` array: an object, or `null` (`none`), on which every
property access throws. -/
abbrev ImportedEntry := Option ImportedRule

/-- A stored rule as an element of an array of parsed objects: what `JSON.parse` reads
back after `JSON.stringify` (which leaves out a property that is `undefined`), and what
the spread `...currentRules` contributes to the merged array. -/
def asImported (rule : Rule) : ImportedEntry :=
  some { id := some rule.id
         source := rule.source
         destination := rule.destination
         matchType := rule.matchType
         enabled := some rule.enabled
         created := some rule.created }

/-- The document that `exportRules` serialises, with its `rules` array as it is read
back from the text. -/
structure ExportDocument where
  version : JsString
  exportDate : JsString
  rules : List ImportedEntry
deriving DecidableEq, Repr

/-- The function `exportRules()`: nothing is exported from an empty list. `exportDate` is
what `new Date().toISOString()` returns. -/
def exportRules (exportDate : JsString) (currentRules : List Rule) : Option ExportDocument :=
  if currentRules.isEmpty then none
  else some { version := "1.0".toList, exportDate := exportDate,
              rules := currentRules.map asImported }

/-- The value of `a || b` for a string property `a` that may be missing: `b` when `a` is
missing or the empty string. -/
def orElse (a : Option JsString) (b : JsString) : JsString :=
  match a with
  | none => b
  | some x => if x.isEmpty then b else x

/-- The object that the callback of `currentRules.map` builds from one element. -/
def withDefaults (generatedId now : JsString) (rule : ImportedRule) : Rule :=
  { id := orElse rule.id generatedId
    source := rule.source
    destination := rule.destination
    matchType := some (orElse rule.matchType "exact".toList)
    enabled := rule.enabled != some false
    created := orElse rule.created now }

/-- The call `currentRules.map(rule => ({ ... }))` of `importRules`, from position `i`
on: `generatedIds i` and `nowAt i` are what `generateRuleId()` and
`new Date().toISOString()` return for the element at position `i`. Reading `rule.id`
of a `null` element throws. -/
def fillDefaults (generatedIds nowAt : Nat → JsString) :
    Nat → List ImportedEntry → Except JsError (List Rule)
  | _, [] => .ok []
  | _, none :: _ => .error .typeError
  | i, some rule :: rest =>
    match fillDefaults generatedIds nowAt (i + 1) rest with
    | .error e => .error e
    | .ok filled => .ok (withDefaults (generatedIds i) (nowAt i) rule :: filled)

/-- The call `currentRules.map(r => r.source.toLowerCase())` that fills
`existingSources`. -/
def lowercasedSources (toLowerCase : JsString → JsString)
    : List Rule → Except JsError (List JsString)
  | [] => .ok []
  | rule :: rest =>
    match rule.source with
    | none => .error .typeError
    | some source =>
      match lowercasedSources toLowerCase rest with
      | .error e => .error e
      | .ok sources => .ok (toLowerCase source :: sources)

/-- The call `importData.rules.filter(rule =>
!existingSources.has(rule.source.toLowerCase()))`. -/
def filterNewRules (toLowerCase : JsString → JsString) (existingSources : List JsString) :
    List ImportedEntry → Except JsError (List ImportedEntry)
  | [] => .ok []
  | none :: _ => .error .typeError
  | some rule :: rest =>
    match rule.source with
    | none => .error .typeError
    | some source =>
      match filterNewRules toLowerCase existingSources rest with
      | .error e => .error e
      | .ok kept =>
        if existingSources.contains (toLowerCase source) then .ok kept
        else .ok (some rule :: kept)

/-- The merge branch of `importRules` up to the assignment
`currentRules = [...currentRules, ...newRules]`: the merged array, before the defaults
are filled in. -/
def mergeRules (toLowerCase : JsString → JsString)
    (currentRules : List Rule) (imported : List ImportedEntry) :
    Except JsError (List ImportedEntry) :=
  match lowercasedSources toLowerCase currentRules with
  | .error e => .error e
  | .ok existingSources =>
    match filterNewRules toLowerCase existingSources imported with
    | .error e => .error e
    | .ok newRules => .ok (currentRules.map asImported ++ newRules)

/-- How the `reader.onload` callback of `importRules` ends: the rules were imported, the
document has no array `rules` (or is not JSON), or an error was thrown while the
elements were processed. The last two end in the `catch` that reports the error. -/
inductive ImportOutcome where
  | imported
  | invalidFormat
  | failed (error : JsError)
deriving DecidableEq, Repr

/-- The value of the editor's `currentRules`: a list of rule objects, or the array of
an imported document as parsed, elements unchecked. -/
inductive EditorRules where
  | stored (rules : List Rule)
  | raw (entries : List ImportedEntry)
deriving DecidableEq, Repr

/-- The `reader.onload` callback of `importRules`, up to the call of `saveRules`.
`importedRules` is `importData.rules` when the document parses and has an array
`rules`, and `none` otherwise; `confirmed` is the answer to the dialog (`true`
replaces, `false` merges). The result is the outcome and the value of `currentRules`
afterwards. -/
def importRules (toLowerCase : JsString → JsString)
    (generatedIds nowAt : Nat → JsString) (currentRules : List Rule)
    (importedRules : Option (List ImportedEntry)) (confirmed : Bool) :
    ImportOutcome × EditorRules :=
  match importedRules with
  | none => (.invalidFormat, .stored currentRules)
  | some imported =>
    if confirmed then
      match fillDefaults generatedIds nowAt 0 imported with
      | .error e => (.failed e, .raw imported)
      | .ok rules => (.imported, .stored rules)
    else
      match mergeRules toLowerCase currentRules imported with
      | .error e => (.failed e, .stored currentRules)
      | .ok merged =>
        match fillDefaults generatedIds nowAt 0 merged with
        | .error e => (.failed e, .raw merged)
        | .ok rules => (.imported, .stored rules)

/-- The source of an element of an imported array, when it is an object that has
one. -/
def entrySource (entry : ImportedEntry) : Option JsString :=
  match entry with
  | none => none
  | some rule => rule.source

/-- Every element of the imported array is an object with a `source`. -/
def entriesHaveSource (entries : List ImportedEntry) : Bool :=
  entries.all fun e => (entrySource e).isSome

/-- An imported element is new for the current list: its lowercased source is the
lowercased source of no current rule. -/
def isNewFor (toLowerCase : JsString → JsString)
    (currentRules : List Rule) (entry : ImportedEntry) : Bool :=
  match entrySource entry with
  | none => false
  | some source =>
    !currentRules.any fun r => r.source.map toLowerCase = some (toLowerCase source)

/-- Two rules with the same fields apart from the id. -/
def sameFields (r r' : Rule) : Prop :=
  r'.source = r.source ∧ r'.destination = r.destination ∧ r'.matchType = r.matchType ∧
    r'.enabled = r.enabled ∧ r'.created = r.created

/-- A rule whose `matchType` is present and not empty and whose `created` is not empty:
the rule that the defaults of `importRules` leave as it is. -/
def hasAllFields (r : Rule) : Bool :=
  (match r.matchType with
    | none => false
    | some m => !m.isEmpty) && !r.created.isEmpty

/-- A rule for `source` with all fields present, as Create stores it, for examples. -/
def ruleFor (id source : String) : Rule :=
  { id := id.toList
    source := some source.toList
    destination := some "https://new.com".toList
    matchType := some "exact".toList
    enabled := true
    created := "2024-01-01T00:00:00.000Z".toList }

/-- A rule loaded from older stored data: it has no `matchType` property. -/
def legacyRule : Rule :=
  { id := "rule_3".toList
    source := some "old.com".toList
    destination := some "https://new.com".toList
    matchType := none
    enabled := true
    created := "2024-01-01T00:00:00.000Z".toList }

/-! ## popup.js: quick-add -/

/-- How a run of `addQuickRule` ends: no page URL, the duplicate alert, the prompt was
cancelled or left empty, the destination does not parse, the rule was pushed, or the
`catch` of the function was reached. -/
inductive QuickAddOutcome where
  | noSite
  | duplicate
  | cancelled
  | invalidDestination
  | added
  | failed (error : JsError)
deriving DecidableEq, Repr

/-- The call `currentRules.find(rule => rule.source.toLowerCase() ===
hostname.toLowerCase())` of `addQuickRule`; the callback throws on a rule without a
`source`. -/
def Popup.findExistingRule (toLowerCase : JsString → JsString)
    (hostname : JsString) : List Rule → Except JsError (Option Rule)
  | [] => .ok none
  | rule :: rest =>
    match rule.source with
    | none => .error .typeError
    | some source =>
      if toLowerCase source = toLowerCase hostname then .ok (some rule)
      else Popup.findExistingRule toLowerCase hostname rest

/-- The function `addQuickRule()` of `popup.js`, up to the push onto `currentRules`:
`tabUrl` is `currentTab.url` (`none` when there is no tab or no URL) and `answer` is
what the prompt returns (`none` when it is cancelled). The result is the outcome and
the value of `currentRules` afterwards. -/
def Popup.addQuickRule (toLowerCase : JsString → JsString)
    (urlHostname : JsString → Option JsString)
    (generatedId now : JsString) (currentRules : List Rule)
    (tabUrl answer : Option JsString) : QuickAddOutcome × List Rule :=
  match tabUrl with
  | none => (.noSite, currentRules)
  | some url =>
    if url.isEmpty then (.noSite, currentRules)
    else
      match urlHostname url with
      | none => (.failed .invalidUrl, currentRules)
      | some hostname =>
        match Popup.findExistingRule toLowerCase hostname currentRules with
        | .error e => (.failed e, currentRules)
        | .ok (some _) => (.duplicate, currentRules)
        | .ok none =>
          match answer with
          | none => (.cancelled, currentRules)
          | some destination =>
            if destination.isEmpty then (.cancelled, currentRules)
            else if (urlHostname destination).isNone then (.invalidDestination, currentRules)
            else
              let newRule : Rule :=
                { id := generatedId
                  source := some hostname
                  destination := some destination
                  matchType := some "exact".toList
                  enabled := true
                  created := now }
              (.added, currentRules ++ [newRule])

/-- The callback of the `find` call in `addQuickRule`, on a rule that has a `source`:
same lowercased source, whatever the match type. -/
def hasSourceOf (toLowerCase : JsString → JsString) (hostname : JsString) (rule : Rule) : Bool :=
  match rule.source with
  | none => false
  | some source => toLowerCase source = toLowerCase hostname

/-- The rule object that `addQuickRule` builds. -/
def quickRuleOf (generatedId now hostname destination : JsString) : Rule :=
  { id := generatedId
    source := some hostname
    destination := some destination
    matchType := some "exact".toList
    enabled := true
    created := now }

/-! ## Ids -/

/-- The ids of a rule list, in order. -/
def ruleIds (rules : List Rule) : List JsString := rules.map fun r => r.id

/-- The id that an imported element brings along: its `id` when it is an object whose
`id` is present and not empty. -/
def presentId (entry : ImportedEntry) : Option JsString :=
  match entry with
  | none => none
  | some rule =>
    match rule.id with
    | none => none
    | some id => if id.isEmpty then none else some id

/-- The ids that the elements of an array bring along, in order. -/
def presentIds (entries : List ImportedEntry) : List JsString :=
  entries.filterMap presentId

/-- A stand-in for the ids that successive calls of `generateRuleId()` return, for
examples: `g`, `g0`, `g00`, and so on. -/
def exampleGeneratedId (i : Nat) : JsString := 'g' :: List.replicate i '0'

/-! ## Helper lemmas: strings -/

theorem includes_iff_within (s p : JsString) : includes s p = true ↔ p <:+: s := by
  induction s with
  | nil =>
    cases p with
    | nil => simp [includes]
    | cons a p => simp [includes, List.isPrefixOf]
  | cons c s ih =>
    simp only [includes, Bool.or_eq_true, ih, List.infix_cons_iff]
    rw [ List.isPrefixOf_iff_prefix]

theorem startsWith_iff (s p : JsString) : startsWith s p = true ↔ p <+: s := by
  unfold startsWith
  rw [ List.isPrefixOf_iff_prefix]

theorem endsWith_iff (s p : JsString) : endsWith s p = true ↔ p <:+ s := by
  unfold endsWith
  rw [ List.isSuffixOf_iff_suffix]

theorem isUpper_iff (c : Char) : c.isUpper = true ↔ 65 ≤ c.toNat ∧ c.toNat ≤ 90 := by
  simp only [Char.isUpper, Bool.and_eq_true, decide_eq_true_eq, Char.toNat, ge_iff_le,
    UInt32.le_def, Fin.le_def]
  rfl

theorem toNat_ofNat_small (n : Nat) (h : n < 55296) : (Char.ofNat n).toNat = n := by
  have hv : n.isValidChar := Or.inl h
  simp only [Char.ofNat, hv, dite_true, Char.ofNatAux, Char.toNat]
  show (UInt32.ofNat' n _).toNat = n
  simp [UInt32.ofNat', UInt32.toNat]

theorem toLower_not_isUpper (c : Char) : c.toLower.isUpper = false := by
  rw [Bool.eq_false_iff, Ne, isUpper_iff]
  unfold Char.toLower
  simp only []
  split
  · rename_i h
    rw [toNat_ofNat_small _ (by omega)]
    omega
  · rename_i h
    exact h

/-- Lowercasing yields a given character that is not a lowercase letter only from that
character itself. -/
theorem toLower_eq_nonletter (c d : Char) (hd : ¬ (97 ≤ d.toNat ∧ d.toNat ≤ 122))
    (h : c.toLower = d) : c = d := by
  by_cases hu : 65 ≤ c.toNat ∧ c.toNat ≤ 90
  · exfalso
    have hl : c.toLower.toNat = c.toNat + 32 := by
      unfold Char.toLower
      simp only []
      rw [if_pos hu, toNat_ofNat_small _ (by omega)]
    rw [h] at hl
    omega
  · have hl : c.toLower = c := by
      unfold Char.toLower
      simp only []
      rw [if_neg hu]
    rw [hl] at h
    exact h

/-- A string whose ASCII-lowercased form contains `://` contains `://` itself. -/
theorem asciiToLowerCase_no_new_scheme (s : JsString)
    (h : "://".toList <:+: asciiToLowerCase s) : "://".toList <:+: s := by
  obtain ⟨a, b, hab⟩ := h
  unfold asciiToLowerCase at hab
  obtain ⟨l₁, l₂, hs, _, _⟩ := List.map_eq_append_iff.mp hab.symm
  rename_i hl₁ hl₂
  obtain ⟨m₁, m₂, hm, hm₁, hm₂⟩ := List.map_eq_append_iff.mp hl₁
  refine ⟨m₁, l₂, ?_⟩
  rw [hs, hm]
  congr 2
  have hlen : m₂.length = 3 := by
    have := congrArg List.length hm₂
    simpa using this
  match m₂, hm₂, hlen with
  | [x, y, z], hxyz, _ =>
    simp only [String.toList, List.map_cons, List.map_nil, List.cons.injEq, and_true] at hxyz
    obtain ⟨hx, hy, hz⟩ := hxyz
    rw [toLower_eq_nonletter x ':' (by decide) hx, toLower_eq_nonletter y '/' (by decide) hy,
      toLower_eq_nonletter z '/' (by decide) hz]
    rfl

theorem asciiToLowerCase_no_upper (s : JsString) :
    ∀ c ∈ asciiToLowerCase s, c.isUpper = false := by
  intro c hmem
  unfold asciiToLowerCase at hmem
  obtain ⟨c', _, hc'⟩ := List.mem_map.mp hmem
  rw [← hc']
  exact toLower_not_isUpper c'

theorem trim_within (s : JsString) : trim s <:+: s :=
  ( List.rdropWhile_prefix isWhiteSpace _).isInfix.trans ( List.dropWhile_suffix _).isInfix

theorem removeLeadingSchemeAndWww_suffix (s : JsString) :
    removeLeadingSchemeAndWww s <:+ s := by
  unfold removeLeadingSchemeAndWww
  simp only []
  split_ifs
  all_goals first
    | exact List.drop_suffix _ _
    | exact ( List.drop_suffix _ _).trans ( List.drop_suffix _ _)
    | exact List.suffix_refl _

theorem removeTrailingSlashes_starts (s : JsString) : removeTrailingSlashes s <+: s :=
  List.rdropWhile_prefix _ _

theorem cleanSourceUrl_within {toLowerCase : JsString → JsString}
    (s : JsString) : cleanSourceUrl toLowerCase s <:+: toLowerCase s := by
  unfold cleanSourceUrl
  exact ((removeTrailingSlashes_starts _).isInfix.trans
    (removeLeadingSchemeAndWww_suffix _).isInfix).trans (trim_within _)

theorem dropWhile_slash_head (l : JsString) :
    ['/'].isPrefixOf (l.dropWhile fun c => c = '/') = false := by
  induction l with
  | nil => rfl
  | cons a l ih =>
    by_cases ha : a = '/'
    · simp only [List.dropWhile, ha, decide_True]
      exact ih
    · simp only [List.dropWhile, ha, decide_False]
      simp [List.isPrefixOf, Ne.symm ha]

theorem removeTrailingSlashes_no_slash (s : JsString) :
    endsWith (removeTrailingSlashes s) "/".toList = false := by
  unfold endsWith removeTrailingSlashes List.rdropWhile List.isSuffixOf
  rw [List.reverse_reverse]
  exact dropWhile_slash_head _

theorem cleanSourceUrl_no_upper {toLowerCase : JsString → JsString}
    (hlow : ∀ x, ∀ c ∈ toLowerCase x, c.isUpper = false) (s : JsString) :
    ∀ c ∈ cleanSourceUrl toLowerCase s, c.isUpper = false := by
  intro c hc
  exact hlow s c ((cleanSourceUrl_within s).subset hc)

theorem startsWith_false_of_starts (s t p : JsString) (hst : s <+: t)
    (h : startsWith t p = false) : startsWith s p = false := by
  cases hb : startsWith s p with
  | false => rfl
  | true =>
    have : startsWith t p = true := (startsWith_iff t p).mpr (((startsWith_iff s p).mp hb).trans
        hst)
    rw [h] at this
    exact absurd this (by simp)

/-- A cleaned source that starts with a scheme comes from an input that contains
`://`, when lowercasing creates no `://`. -/
theorem includes_scheme_of_cleaned {toLowerCase : JsString → JsString}
    (hlower : ∀ x, "://".toList <:+: toLowerCase x → "://".toList <:+: x)
    (s scheme : JsString) (hscheme : "://".toList <:+: scheme)
    (h : startsWith (cleanSourceUrl toLowerCase s) scheme = true) :
    includes s "://".toList = true := by
  rw [includes_iff_within]
  apply hlower
  exact (hscheme.trans ((startsWith_iff _ _).mp h).isInfix).trans (cleanSourceUrl_within s)

/-- A string is its part without the trailing slashes, followed by slashes. -/
theorem dropWhile_slash_split (l : JsString) :
    ∃ k, l = List.replicate k '/' ++ l.dropWhile fun c => c = '/' := by
  induction l with
  | nil => exact ⟨0, rfl⟩
  | cons a l ih =>
    by_cases ha : a = '/'
    · obtain ⟨k, hk⟩ := ih
      refine ⟨k + 1, ?_⟩
      simp only [List.dropWhile, ha, decide_True, List.replicate_succ, List.cons_append,
        List.cons.injEq, true_and]
      exact hk
    · exact ⟨0, by simp [List.dropWhile, ha]⟩

theorem eq_append_drop_of_startsWith (t p : JsString) (h : startsWith t p = true) :
    t = p ++ t.drop p.length := by
  have hp : p <+: t := (startsWith_iff t p).mp h
  exact ( List.prefix_iff_eq_append.mp hp).symm

/-! ## Helper lemmas: the matcher -/

theorem matchLoop_ok_some {toLowerCase : JsString → JsString}
    (hostname : JsString) (rules : List Rule) (r : Rule)
    (h : matchLoop toLowerCase hostname rules = .ok (some r)) :
    r ∈ rules ∧ r.enabled = true := by
  induction rules with
  | nil => simp [matchLoop] at h
  | cons rule rest ih =>
    unfold matchLoop at h
    split at h
    · have := ih h
      exact ⟨List.mem_cons_of_mem _ this.1, this.2⟩
    · rename_i hen
      have hen' : rule.enabled = true := by simpa using hen
      split at h
      · simp at h
      · simp only [] at h
        repeat' split at h
        all_goals first
          | exact ⟨List.mem_cons_of_mem _ (ih h).1, (ih h).2⟩
          | (simp only [Except.ok.injEq, Option.some.injEq] at h; subst h
             exact ⟨List.mem_cons_self _ _, hen'⟩)

/-- One step of the loop on an enabled rule that has a source: the rule is returned when
its predicate holds, and the loop goes on otherwise. -/
theorem matchLoop_cons_source {toLowerCase : JsString → JsString}
    (hostname : JsString) (rule : Rule) (rest : List Rule)
    (source : JsString) (hen : rule.enabled = true) (hs : rule.source = some source) :
    matchLoop toLowerCase hostname (rule :: rest) =
      if predicateHolds toLowerCase hostname rule then .ok (some rule) else matchLoop toLowerCase
          hostname rest := by
  rw [matchLoop]
  simp only [hen, hs, predicateHolds, Bool.not_true, Bool.false_eq_true, if_false]
  split_ifs <;> simp_all

theorem matchLoop_cons_disabled {toLowerCase : JsString → JsString}
    (hostname : JsString) (rule : Rule) (rest : List Rule)
    (hen : rule.enabled = false) :
    matchLoop toLowerCase hostname (rule :: rest) = matchLoop toLowerCase hostname rest := by
  rw [matchLoop]
  simp [hen]

theorem matchLoop_cons_sourceless {toLowerCase : JsString → JsString}
    (hostname : JsString) (rule : Rule) (rest : List Rule)
    (hen : rule.enabled = true) (hs : rule.source = none) :
    matchLoop toLowerCase hostname (rule :: rest) = .error .typeError := by
  rw [matchLoop]
  simp [hen, hs]

/-- On a list whose enabled rules all have a source the loop does not throw and returns
the first enabled rule whose predicate holds. -/
theorem matchLoop_eq_find {toLowerCase : JsString → JsString}
    (hostname : JsString) (rules : List Rule)
    (h : enabledHaveSource rules = true) :
    matchLoop toLowerCase hostname rules =
      .ok (rules.find? fun r => r.enabled && predicateHolds toLowerCase hostname r) := by
  induction rules with
  | nil => simp [matchLoop]
  | cons rule rest ih =>
    simp only [enabledHaveSource, List.all_cons, Bool.and_eq_true, Bool.or_eq_true,
      Bool.not_eq_true'] at h
    have hrest : enabledHaveSource rest = true := h.2
    cases hen : rule.enabled with
    | false =>
      rw [matchLoop_cons_disabled _ _ _ hen, ih hrest]
      simp [List.find?, hen]
    | true =>
      have hsome : rule.source.isSome = true := by
        rcases h.1 with h1 | h1
        · simp [hen] at h1
        · exact h1
      obtain ⟨source, hs⟩ := Option.isSome_iff_exists.mp hsome
      rw [matchLoop_cons_source _ _ _ source hen hs, ih hrest]
      cases hp : predicateHolds toLowerCase hostname rule <;> simp [List.find?, hen, hp]

/-- A rule without a source that is enabled and comes before every matching rule makes
the loop throw. -/
theorem matchLoop_sourceless_first {toLowerCase : JsString → JsString}
    (hostname : JsString) (pre post : List Rule) (bad : Rule)
    (hpre : ∀ r ∈ pre, (r.enabled && predicateHolds toLowerCase hostname r) = false)
    (hen : bad.enabled = true) (hs : bad.source = none) :
    matchLoop toLowerCase hostname (pre ++ bad :: post) = .error .typeError := by
  induction pre with
  | nil => exact matchLoop_cons_sourceless _ _ _ hen hs
  | cons rule rest ih =>
    have hrest : ∀ r ∈ rest, (r.enabled && predicateHolds toLowerCase hostname r) = false :=
      fun r hr => hpre r (List.mem_cons_of_mem _ hr)
    have hrule := hpre rule (List.mem_cons_self _ _)
    rw [List.cons_append]
    cases hen' : rule.enabled with
    | false => rw [matchLoop_cons_disabled _ _ _ hen', ih hrest]
    | true =>
      cases hsrc : rule.source with
      | none => exact matchLoop_cons_sourceless _ _ _ hen' hsrc
      | some source =>
        rw [matchLoop_cons_source _ _ _ source hen' hsrc]
        simp only [hen', Bool.true_and] at hrule
        simp [hrule, ih hrest]

theorem findMatchingRule_of_hostname {toLowerCase : JsString → JsString}
    (urlHostname : JsString → Option JsString)
    (R : List Rule) (U h : JsString) (hparse : urlHostname U = some h) :
    findMatchingRule toLowerCase urlHostname R U =
      match matchLoop toLowerCase (toLowerCase h) R with
      | .ok result => result
      | .error _ => none := by
  simp [findMatchingRule, findMatchingRuleTry, hparse]

/-! ## Helper lemmas: creating a rule -/

/-- On a list whose rules all have a source the `find` call does not throw and returns
the first duplicate. -/
theorem findExistingRule_eq_find {toLowerCase : JsString → JsString}
    (cleanedSource matchType : JsString) (rules : List Rule)
    (h : allHaveSource rules = true) :
    findExistingRule toLowerCase cleanedSource matchType rules =
      .ok (rules.find? (isDuplicateOf toLowerCase cleanedSource matchType)) := by
  induction rules with
  | nil => simp [findExistingRule]
  | cons rule rest ih =>
    simp only [allHaveSource, List.all_cons, Bool.and_eq_true] at h
    have hrest : allHaveSource rest = true := h.2
    obtain ⟨source, hs⟩ := Option.isSome_iff_exists.mp h.1
    rw [findExistingRule]
    simp only [hs]
    cases hd : isDuplicateOf toLowerCase cleanedSource matchType rule with
    | true =>
      have hd' := hd
      simp only [isDuplicateOf, hs] at hd'
      rw [if_pos hd']
      simp [List.find?, hd]
    | false =>
      have hd' := hd
      simp only [isDuplicateOf, hs] at hd'
      rw [if_neg (by simp [hd']), ih hrest]
      simp [List.find?, hd]

theorem isDuplicateOf_iff {toLowerCase : JsString → JsString}
    (cleanedSource matchType : JsString) (rule : Rule) :
    isDuplicateOf toLowerCase cleanedSource matchType rule = true ↔
      ∃ s, rule.source = some s ∧ toLowerCase s = toLowerCase cleanedSource ∧
        rule.matchType = some matchType := by
  unfold isDuplicateOf
  cases hs : rule.source with
  | none => simp
  | some source => simp

/-- What `handleAddRule` does with a valid input on a list whose rules all have a
source. -/
theorem handleAddRule_of_valid {toLowerCase : JsString → JsString}
    (urlHostname : JsString → Option JsString)
    (generatedId now : JsString) (currentRules : List Rule) (form : FormValues)
    (hvalid : validateInputs urlHostname (trim form.sourceUrl) (trim form.destinationUrl)
      = true)
    (hsrc : allHaveSource currentRules = true) :
    handleAddRule toLowerCase urlHostname generatedId now currentRules form =
      if (currentRules.find?
          (isDuplicateOf toLowerCase (cleanSourceUrl toLowerCase (trim form.sourceUrl))
              form.matchType)).isSome
      then (.duplicate, currentRules)
      else (.added, currentRules ++ [newRuleOf toLowerCase generatedId now form]) := by
  unfold handleAddRule
  simp only [hvalid, Bool.not_true, Bool.false_eq_true, if_false]
  rw [findExistingRule_eq_find _ _ _ hsrc]
  cases hf : currentRules.find?
      (isDuplicateOf toLowerCase (cleanSourceUrl toLowerCase (trim form.sourceUrl)) form.matchType)
          with
  | none => simp [newRuleOf]
  | some r => simp

/-- Whenever `handleAddRule` pushes a rule, the input was valid and the rule pushed is
`newRuleOf`. -/
theorem handleAddRule_added {toLowerCase : JsString → JsString}
    (urlHostname : JsString → Option JsString)
    (generatedId now : JsString) (currentRules rules' : List Rule) (form : FormValues)
    (h : handleAddRule toLowerCase urlHostname generatedId now currentRules form = (.added, rules'))
        :
    validateInputs urlHostname (trim form.sourceUrl) (trim form.destinationUrl) = true ∧
      rules' = currentRules ++ [newRuleOf toLowerCase generatedId now form] := by
  unfold handleAddRule at h
  simp only [] at h
  cases hv : validateInputs urlHostname (trim form.sourceUrl) (trim form.destinationUrl) with
  | false => simp [hv] at h
  | true =>
    simp only [hv, Bool.not_true, Bool.false_eq_true, if_false] at h
    split at h
    · simp at h
    · simp at h
    · simp only [Prod.mk.injEq, true_and] at h
      exact ⟨rfl, h.symm⟩

theorem validateInputs_no_scheme (urlHostname : JsString → Option JsString)
    (sourceUrl destinationUrl : JsString)
    (h : validateInputs urlHostname sourceUrl destinationUrl = true) :
    includes sourceUrl "://".toList = false := by
  unfold validateInputs at h
  cases hi : includes sourceUrl "://".toList with
  | false => rfl
  | true =>
    rw [hi] at h
    simp at h

/-! ## The matcher (background.js) -/

/-- C1: for every rule list and URL, `findMatchingRule` returns either nothing or a rule
of the list whose `enabled` flag is true; a disabled rule is never returned. -/
theorem findMatchingRule_none_or_enabled_member (toLowerCase : JsString → JsString)
    (urlHostname : JsString → Option JsString)
    (R : List Rule) (U : JsString) :
    findMatchingRule toLowerCase urlHostname R U = none ∨
      ∃ r, findMatchingRule toLowerCase urlHostname R U = some r ∧ r ∈ R ∧
        r.enabled = true := by
  unfold findMatchingRule
  split
  · rename_i result hres
    cases result with
    | none => exact Or.inl rfl
    | some r =>
      right
      refine ⟨r, rfl, ?_⟩
      unfold findMatchingRuleTry at hres
      split at hres
      · simp at hres
      · exact matchLoop_ok_some _ _ _ hres
  · exact Or.inl rfl

/-- C2, as stated, fails: with an enabled rule that has no `source` in front of an
enabled `exact` rule for `old.com`, the URL `http://old.com/page` parses, the second
rule is enabled and its predicate holds, and `findMatchingRule` returns nothing. -/
theorem first_match_counterexample :
    simpleUrlHostname "http://old.com/page".toList = some "old.com".toList ∧
    [sourcelessRule, exampleRule "exact"].find?
      (fun r => r.enabled && predicateHolds asciiToLowerCase "old.com".toList r) =
        some (exampleRule "exact") ∧
    findMatchingRule asciiToLowerCase simpleUrlHostname [sourcelessRule, exampleRule "exact"]
      "http://old.com/page".toList = none := by
  decide

/-- C2, amended: for a URL whose hostname parses, (1) when every enabled rule of the list
has a `source`, `findMatchingRule` returns the earliest rule in list order that is
enabled and whose match-type predicate holds against the lowercased hostname, and
nothing when there is no such rule; (2) when an enabled rule without a `source` comes
before every enabled rule whose predicate holds, `findMatchingRule` returns nothing. -/
theorem findMatchingRule_first_match (toLowerCase : JsString → JsString)
    (urlHostname : JsString → Option JsString)
    (R : List Rule) (U h : JsString) (hparse : urlHostname U = some h) :
    (enabledHaveSource R = true →
      findMatchingRule toLowerCase urlHostname R U =
        R.find? fun r => r.enabled && predicateHolds toLowerCase (toLowerCase h) r) ∧
    (∀ pre post bad, R = pre ++ bad :: post →
      (∀ r ∈ pre, (r.enabled && predicateHolds toLowerCase (toLowerCase h) r) = false) →
      bad.enabled = true → bad.source = none →
      findMatchingRule toLowerCase urlHostname R U = none) := by
  rw [findMatchingRule_of_hostname urlHostname R U h hparse]
  constructor
  · intro hsrc
    rw [matchLoop_eq_find _ _ hsrc]
  · intro pre post bad hR hpre hen hs
    rw [hR, matchLoop_sourceless_first _ _ _ _ hpre hen hs]

/-- Instance of C2 amended: `http://old.com/page` against a `contains` rule followed by
an `exact` rule for `old.com` returns the `contains` rule, the earlier one. -/
theorem findMatchingRule_first_match_witness :
    findMatchingRule asciiToLowerCase simpleUrlHostname
      [exampleRule "contains", exampleRule "exact"]
      "http://old.com/page".toList = some (exampleRule "contains") :=
  ((findMatchingRule_first_match asciiToLowerCase simpleUrlHostname
      [exampleRule "contains", exampleRule "exact"] "http://old.com/page".toList
      "old.com".toList (by decide)).1 (by decide)).trans (by decide)

/-- C3, as stated, fails: the enabled `exact` rule with source `OLD.com` is returned for
the hostname `old.com`, which is not equal to the rule's source. -/
theorem predicate_semantics_counterexample :
    simpleUrlHostname "http://old.com/page".toList = some "old.com".toList ∧
    capitalRule.enabled = true ∧
    capitalRule.matchType = some "exact".toList ∧
    capitalRule.source ≠ some "old.com".toList ∧
    findMatchingRule asciiToLowerCase simpleUrlHostname [capitalRule] "http://old.com/page".toList
      = some capitalRule := by
  decide

/-- C3, amended: for a URL with hostname `h` and an enabled rule `r`, `findMatchingRule`
on the one-rule list returns `r` exactly when `r` has a source `s` and, comparing the
lowercased `h` with the lowercased `s`: the match type is `exact` and they are equal,
or `contains` and `s` is a substring, or `startswith` and `s` is a leading part, or
any other or no match type and they are equal. -/
theorem findMatchingRule_predicate_semantics (toLowerCase : JsString → JsString)
    (urlHostname : JsString → Option JsString)
    (U h : JsString) (r : Rule) (hparse : urlHostname U = some h)
    (hen : r.enabled = true) :
    findMatchingRule toLowerCase urlHostname [r] U = some r ↔
      ∃ s, r.source = some s ∧
        ((r.matchType = some "exact".toList ∧ toLowerCase h = toLowerCase s) ∨
         (r.matchType = some "contains".toList ∧ toLowerCase s <:+: toLowerCase h) ∨
         (r.matchType = some "startswith".toList ∧ toLowerCase s <+: toLowerCase h) ∨
         (r.matchType ≠ some "exact".toList ∧ r.matchType ≠ some "contains".toList ∧
          r.matchType ≠ some "startswith".toList ∧ toLowerCase h = toLowerCase s)) := by
  rw [findMatchingRule_of_hostname urlHostname [r] U h hparse]
  cases hs : r.source with
  | none =>
    rw [matchLoop_cons_sourceless _ _ _ hen hs]
    simp
  | some s =>
    rw [matchLoop_cons_source _ _ _ s hen hs]
    have hp : predicateHolds toLowerCase (toLowerCase h) r = true ↔
        ((r.matchType = some "exact".toList ∧ toLowerCase h = toLowerCase s) ∨
         (r.matchType = some "contains".toList ∧ toLowerCase s <:+: toLowerCase h) ∨
         (r.matchType = some "startswith".toList ∧ toLowerCase s <+: toLowerCase h) ∨
         (r.matchType ≠ some "exact".toList ∧ r.matchType ≠ some "contains".toList ∧
          r.matchType ≠ some "startswith".toList ∧ toLowerCase h = toLowerCase s)) := by
      have hec : "exact".toList ≠ "contains".toList := by decide
      have hew : "exact".toList ≠ "startswith".toList := by decide
      have hcw : "contains".toList ≠ "startswith".toList := by decide
      simp only [predicateHolds, hs]
      generalize "exact".toList = e at *
      generalize "contains".toList = c at *
      generalize "startswith".toList = w at *
      by_cases h1 : r.matchType = some e
      · have h2 : r.matchType ≠ some c := by
          rw [h1]; exact fun hc => hec (Option.some.inj hc)
        have h3 : r.matchType ≠ some w := by
          rw [h1]; exact fun hc => hew (Option.some.inj hc)
        simp only [if_pos h1]
        simp [h1, hec, hew]
      · by_cases h2 : r.matchType = some c
        · have h3 : r.matchType ≠ some w := by
            rw [h2]; exact fun hc => hcw (Option.some.inj hc)
          simp only [if_neg h1, if_pos h2, includes_iff_within]
          simp [h2, hec.symm, hcw]
        · by_cases h3 : r.matchType = some w
          · simp only [if_neg h1, if_neg h2, if_pos h3, startsWith_iff]
            simp [h3, hew.symm, hcw.symm]
          · simp only [if_neg h1, if_neg h2, if_neg h3]
            simp [h1, h2, h3]
    cases hb : predicateHolds toLowerCase (toLowerCase h) r with
    | true =>
      simp only [if_true]
      constructor
      · intro _
        exact ⟨s, rfl, hp.mp hb⟩
      · intro _
        trivial
    | false =>
      simp only [Bool.false_eq_true, if_false, matchLoop]
      constructor
      · intro hne
        simp at hne
      · rintro ⟨s', hs', hcond⟩
        have hss : s' = s := (Option.some.inj hs').symm
        subst hss
        rw [hp.mpr hcond] at hb
        simp at hb

/-- Instance of C3 amended, the example of the specification: the rule with source
`old.com` and match type `contains` is returned for the hostname
`sub.old.com.evil.net`. -/
theorem findMatchingRule_predicate_semantics_witness :
    findMatchingRule asciiToLowerCase simpleUrlHostname [exampleRule "contains"]
      "http://sub.old.com.evil.net".toList = some (exampleRule "contains") :=
  (findMatchingRule_predicate_semantics asciiToLowerCase simpleUrlHostname
    "http://sub.old.com.evil.net".toList "sub.old.com.evil.net".toList
    (exampleRule "contains") (by decide) (by decide)).mpr
    ⟨"old.com".toList, by decide, Or.inr (Or.inl ⟨by decide, by decide⟩)⟩

/-- C4: `findMatchingRule` always has a result, and the result is nothing whenever the URL
does not parse and whenever the `try` block throws, whatever the error. -/
theorem findMatchingRule_fails_closed (toLowerCase : JsString → JsString)
    (urlHostname : JsString → Option JsString)
    (R : List Rule) (U : JsString) :
    (∃ result, findMatchingRule toLowerCase urlHostname R U = result) ∧
    (urlHostname U = none → findMatchingRule toLowerCase urlHostname R U = none) ∧
    (∀ e, findMatchingRuleTry toLowerCase urlHostname R U = .error e →
      findMatchingRule toLowerCase urlHostname R U = none) := by
  refine ⟨⟨_, rfl⟩, ?_, ?_⟩
  · intro hnone
    simp [findMatchingRule, findMatchingRuleTry, hnone]
  · intro e he
    simp [findMatchingRule, he]

/-- Instance of C4: `old.com` does not parse as a URL and gives nothing; a rule without a
`source` makes the `try` block throw on `http://old.com/page`, which gives nothing. -/
theorem findMatchingRule_fails_closed_witness :
    simpleUrlHostname "old.com".toList = none ∧
    findMatchingRule asciiToLowerCase simpleUrlHostname [exampleRule "exact"] "old.com".toList =
        none ∧
    findMatchingRuleTry asciiToLowerCase simpleUrlHostname [sourcelessRule]
        "http://old.com/page".toList
      = .error .typeError ∧
    findMatchingRule asciiToLowerCase simpleUrlHostname [sourcelessRule]
        "http://old.com/page".toList
      = none :=
  ⟨by decide,
   (findMatchingRule_fails_closed asciiToLowerCase simpleUrlHostname [exampleRule "exact"]
      "old.com".toList).2.1 (by decide),
   rfl,
   (findMatchingRule_fails_closed asciiToLowerCase simpleUrlHostname [sourcelessRule]
      "http://old.com/page".toList).2.2 .typeError rfl⟩

/-! ## The interceptor (background.js) -/

/-- C5: while the cached `extensionEnabled` is false, `handleWebRequest` allows every
request, for every URL and every cached rule list. -/
theorem handleWebRequest_disabled_allows (toLowerCase : JsString → JsString)
    (urlHostname : JsString → Option JsString)
    (R : List Rule) (U : JsString) :
    handleWebRequest toLowerCase urlHostname (some false) R U = .allow := by
  simp [handleWebRequest, truthy]

/-- C6: while the cached `extensionEnabled` is true, `handleWebRequest` redirects to `d`
exactly when the URL starts with `http://` or `https://` and `findMatchingRule`
returns a rule with destination `d`; it allows the request when the URL has another
scheme or no rule matches. With the single `exact` rule for `old.com`,
`http://old.com/page` is redirected to `https://new.com` and `http://sub.old.com` is
allowed (for every lowercasing that keeps `sub.old.com` and `old.com` apart). -/
theorem handleWebRequest_active (toLowerCase : JsString → JsString)
    (urlHostname : JsString → Option JsString)
    (R : List Rule) (U : JsString) :
    (∀ d, handleWebRequest toLowerCase urlHostname (some true) R U = .redirect d ↔
      ((startsWith U "http://".toList = true ∨ startsWith U "https://".toList = true) ∧
        ∃ r, findMatchingRule toLowerCase urlHostname R U = some r ∧ r.destination = d)) ∧
    ((¬ (startsWith U "http://".toList = true ∨ startsWith U "https://".toList = true) ∨
        findMatchingRule toLowerCase urlHostname R U = none) →
      handleWebRequest toLowerCase urlHostname (some true) R U = .allow) ∧
    (urlHostname "http://old.com/page".toList = some "old.com".toList →
      handleWebRequest toLowerCase urlHostname (some true) [exampleRule "exact"]
        "http://old.com/page".toList = .redirect (some "https://new.com".toList)) ∧
    (urlHostname "http://sub.old.com".toList = some "sub.old.com".toList →
      toLowerCase "sub.old.com".toList ≠ toLowerCase "old.com".toList →
      handleWebRequest toLowerCase urlHostname (some true) [exampleRule "exact"]
        "http://sub.old.com".toList = .allow) := by
  refine ⟨?_, ?_, ?_, ?_⟩
  · intro d
    unfold handleWebRequest
    generalize startsWith U "http://".toList = a
    generalize startsWith U "https://".toList = b
    cases hf : findMatchingRule toLowerCase urlHostname R U <;> cases a <;> cases b <;> simp
        [truthy]
  · intro hcase
    unfold handleWebRequest
    revert hcase
    generalize startsWith U "http://".toList = a
    generalize startsWith U "https://".toList = b
    cases hf : findMatchingRule toLowerCase urlHostname R U <;> cases a <;> cases b <;> simp
        [truthy]
  · intro hparse
    have hp : predicateHolds toLowerCase (toLowerCase "old.com".toList)
        (exampleRule "exact") = true := by
      simp [predicateHolds, exampleRule]
    have hf : findMatchingRule toLowerCase urlHostname [exampleRule "exact"]
        "http://old.com/page".toList = some (exampleRule "exact") := by
      rw [findMatchingRule_of_hostname _ _ _ _ hparse,
        matchLoop_cons_source _ _ _ "old.com".toList rfl rfl, hp]
      rfl
    have hsw : startsWith "http://old.com/page".toList "http://".toList = true := by decide
    simp only [handleWebRequest, truthy, hf, hsw]
    rfl
  · intro hparse hne
    have hp : predicateHolds toLowerCase (toLowerCase "sub.old.com".toList)
        (exampleRule "exact") = false := by
      have hne' : ¬ toLowerCase ("sub.old.com".toList) = toLowerCase ("old.com".toList) := hne
      simp only [String.toList] at hne'
      simp [predicateHolds, exampleRule, hne']
    have hf : findMatchingRule toLowerCase urlHostname [exampleRule "exact"]
        "http://sub.old.com".toList = none := by
      rw [findMatchingRule_of_hostname _ _ _ _ hparse,
        matchLoop_cons_source _ _ _ "old.com".toList rfl rfl, hp]
      rfl
    have hsw : startsWith "http://sub.old.com".toList "http://".toList = true := by decide
    simp only [handleWebRequest, truthy, hf, hsw]
    rfl

/-- Instance of C6 with the stand-in parser: `http://old.com/page` is redirected to
`https://new.com`, `http://sub.old.com` is allowed, and `ftp://old.com/page` is
allowed although the rule matches its hostname. -/
theorem handleWebRequest_active_witness :
    handleWebRequest asciiToLowerCase simpleUrlHostname (some true) [exampleRule "exact"]
      "http://old.com/page".toList = .redirect (some "https://new.com".toList) ∧
    handleWebRequest asciiToLowerCase simpleUrlHostname (some true) [exampleRule "exact"]
      "http://sub.old.com".toList = .allow ∧
    findMatchingRule asciiToLowerCase simpleUrlHostname [exampleRule "exact"]
        "ftp://old.com/page".toList
      = some (exampleRule "exact") ∧
    handleWebRequest asciiToLowerCase simpleUrlHostname (some true) [exampleRule "exact"]
      "ftp://old.com/page".toList = .allow :=
  ⟨(handleWebRequest_active asciiToLowerCase simpleUrlHostname [] []).2.2.1 (by decide),
   (handleWebRequest_active asciiToLowerCase simpleUrlHostname [] []).2.2.2 (by decide)
      (by decide),
   by decide,
   (handleWebRequest_active asciiToLowerCase simpleUrlHostname [exampleRule "exact"]
      "ftp://old.com/page".toList).2.1 (Or.inl (by decide))⟩

/-! ## Normalising the source (options.js) -/

/-- C7: `cleanSourceUrl("https://www.Example.com/")` and `cleanSourceUrl("EXAMPLE.com")`
are both `"example.com"`. -/
theorem cleanSourceUrl_examples :
    cleanSourceUrl asciiToLowerCase "https://www.Example.com/".toList = "example.com".toList ∧
    cleanSourceUrl asciiToLowerCase "EXAMPLE.com".toList = "example.com".toList := by
  decide

/-- C8, as stated, fails: `cleanSourceUrl` removes one `www.` and one scheme only, so
`www.www.a.com` is cleaned to `www.a.com` and `http://http://a.com` to `http://a.com`;
Create accepts `www.www.a.com` and stores the source `www.a.com`. -/
theorem cleanSourceUrl_normal_form_counterexample :
    cleanSourceUrl asciiToLowerCase "www.www.a.com".toList = "www.a.com".toList ∧
    startsWith (cleanSourceUrl asciiToLowerCase "www.www.a.com".toList) "www.".toList
      = true ∧
    cleanSourceUrl asciiToLowerCase "http://http://a.com".toList = "http://a.com".toList ∧
    startsWith (cleanSourceUrl asciiToLowerCase "http://http://a.com".toList)
      "http://".toList = true ∧
    handleAddRule asciiToLowerCase simpleUrlHostname "rule_9".toList "2024-01-01".toList []
        ⟨"www.www.a.com".toList, "https://new.com".toList, "exact".toList⟩ =
      (.added, [{ id := "rule_9".toList, source := some "www.a.com".toList,
                  destination := some "https://new.com".toList,
                  matchType := some "exact".toList, enabled := true,
                  created := "2024-01-01".toList }]) := by
  decide

/-- C8, amended: for every input string `s`, with `t` the lowercased and trimmed `s`:
`t` is a part `a`, then a part `b`, then a rest `u`, where `a` is `http://` or
`https://`, or empty when `t` begins with neither; `b` is `www.`, or empty when `u`
does not begin with `www.`; and `u` is `cleanSourceUrl(s)` followed by slashes only,
`cleanSourceUrl(s)` not ending with `/`. So one leading scheme and then one leading
`www.` are removed, and the result begins with `p` only if `u` does. Every character of
the result is a character of the lowercased `s`, hence no uppercase ASCII letter when
lowercasing leaves none. Every rule that Create pushes has `cleanSourceUrl` of the
trimmed source field as its source, and that source does not begin with `http://` or
`https://` (lowercasing creating no `://`). -/
theorem cleanSourceUrl_normal_form (toLowerCase : JsString → JsString) (s : JsString)
    (urlHostname : JsString → Option JsString) (generatedId now : JsString)
    (currentRules : List Rule) (form : FormValues) :
    (∃ a b u k,
      trim (toLowerCase s) = a ++ b ++ u ∧
      (a = "http://".toList ∨ a = "https://".toList ∨
        (a = [] ∧ startsWith (trim (toLowerCase s)) "http://".toList = false ∧
          startsWith (trim (toLowerCase s)) "https://".toList = false)) ∧
      (b = "www.".toList ∨ (b = [] ∧ startsWith u "www.".toList = false)) ∧
      u = cleanSourceUrl toLowerCase s ++ List.replicate k '/' ∧
      endsWith (cleanSourceUrl toLowerCase s) "/".toList = false ∧
      (∀ p, startsWith u p = false → startsWith (cleanSourceUrl toLowerCase s) p = false)) ∧
    (∀ c ∈ cleanSourceUrl toLowerCase s, c ∈ toLowerCase s) ∧
    ((∀ x, ∀ c ∈ toLowerCase x, c.isUpper = false) →
      ∀ c ∈ cleanSourceUrl toLowerCase s, c.isUpper = false) ∧
    ((∀ x, "://".toList <:+: toLowerCase x → "://".toList <:+: x) →
      ∀ rules', handleAddRule toLowerCase urlHostname generatedId now currentRules form
          = (.added, rules') →
        ∃ stored, rules' = currentRules ++ [stored] ∧
          stored.source = some (cleanSourceUrl toLowerCase (trim form.sourceUrl)) ∧
          startsWith (cleanSourceUrl toLowerCase (trim form.sourceUrl)) "http://".toList
            = false ∧
          startsWith (cleanSourceUrl toLowerCase (trim form.sourceUrl)) "https://".toList
            = false) := by
  refine ⟨?_, ?_, ?_, ?_⟩
  · have hwww : ∀ v : JsString, ∃ b,
        v = b ++ (if startsWith v "www.".toList then v.drop 4 else v) ∧
        (b = "www.".toList ∨
          (b = [] ∧ startsWith (if startsWith v "www.".toList then v.drop 4 else v)
            "www.".toList = false)) := by
      intro v
      cases hv : startsWith v "www.".toList with
      | true =>
        refine ⟨"www.".toList, ?_, Or.inl rfl⟩
        simpa using eq_append_drop_of_startsWith v _ hv
      | false => exact ⟨[], by simp, Or.inr ⟨rfl, by simpa using hv⟩⟩
    have hsplit : ∃ a b, trim (toLowerCase s) =
          a ++ b ++ removeLeadingSchemeAndWww (trim (toLowerCase s)) ∧
        (a = "http://".toList ∨ a = "https://".toList ∨
          (a = [] ∧ startsWith (trim (toLowerCase s)) "http://".toList = false ∧
            startsWith (trim (toLowerCase s)) "https://".toList = false)) ∧
        (b = "www.".toList ∨
          (b = [] ∧ startsWith (removeLeadingSchemeAndWww (trim (toLowerCase s)))
            "www.".toList = false)) := by
      generalize trim (toLowerCase s) = t
      unfold removeLeadingSchemeAndWww
      simp only []
      cases hs : startsWith t "https://".toList with
      | true =>
        obtain ⟨b, hb, hb'⟩ := hwww (t.drop 8)
        refine ⟨"https://".toList, b, ?_, Or.inr (Or.inl rfl), by simpa using hb'⟩
        have ht := eq_append_drop_of_startsWith t _ hs
        simp only [if_true, List.append_assoc]
        rw [← hb]
        simpa using ht
      | false =>
        cases hh : startsWith t "http://".toList with
        | true =>
          obtain ⟨b, hb, hb'⟩ := hwww (t.drop 7)
          refine ⟨"http://".toList, b, ?_, Or.inl rfl, by simpa using hb'⟩
          have ht := eq_append_drop_of_startsWith t _ hh
          simp only [Bool.false_eq_true, if_false, if_true, List.append_assoc]
          rw [← hb]
          simpa using ht
        | false =>
          obtain ⟨b, hb, hb'⟩ := hwww t
          refine ⟨[], b, ?_, Or.inr (Or.inr ⟨rfl, rfl, rfl⟩), by simpa using hb'⟩
          simp only [Bool.false_eq_true, if_false, List.nil_append]
          exact hb
    obtain ⟨a, b, hab, ha, hb⟩ := hsplit
    have hk : ∃ k, removeLeadingSchemeAndWww (trim (toLowerCase s)) =
        cleanSourceUrl toLowerCase s ++ List.replicate k '/' := by
      obtain ⟨k, hk⟩ := dropWhile_slash_split
        (removeLeadingSchemeAndWww (trim (toLowerCase s))).reverse
      refine ⟨k, ?_⟩
      have := congrArg List.reverse hk
      simp only [List.reverse_reverse, List.reverse_append, List.reverse_replicate] at this
      exact this
    obtain ⟨k, hk⟩ := hk
    refine ⟨a, b, removeLeadingSchemeAndWww (trim (toLowerCase s)), k, hab, ha, hb, hk,
      removeTrailingSlashes_no_slash _, ?_⟩
    intro p hp
    exact startsWith_false_of_starts _ _ p (removeTrailingSlashes_starts _) hp
  · exact fun c hc => (cleanSourceUrl_within s).subset hc
  · exact fun hlow => cleanSourceUrl_no_upper hlow s
  · intro hlower rules' hadd
    obtain ⟨hvalid, hrules⟩ := handleAddRule_added _ _ _ _ _ _ hadd
    have hno := validateInputs_no_scheme _ _ _ hvalid
    refine ⟨newRuleOf toLowerCase generatedId now form, hrules, rfl, ?_, ?_⟩
    · cases hb : startsWith (cleanSourceUrl toLowerCase (trim form.sourceUrl))
          "http://".toList with
      | false => rfl
      | true =>
        have := includes_scheme_of_cleaned hlower _ _ (by decide) hb
        rw [hno] at this
        exact absurd this (by simp)
    · cases hb : startsWith (cleanSourceUrl toLowerCase (trim form.sourceUrl))
          "https://".toList with
      | false => rfl
      | true =>
        have := includes_scheme_of_cleaned hlower _ _ (by decide) hb
        rw [hno] at this
        exact absurd this (by simp)

/-- Instance of C8 amended, with the ASCII lowercasing: no character of the cleaned
`https://www.Example.com/` is an uppercase letter, and the rule that Create pushes for
the source field ` WWW.Example.com/ ` has the cleaned source, which begins with no
scheme. -/
theorem cleanSourceUrl_normal_form_witness :
    (∀ c ∈ cleanSourceUrl asciiToLowerCase "https://www.Example.com/".toList,
      c.isUpper = false) ∧
    ∃ stored,
      [exampleRule "exact"] ++ [newRuleOf asciiToLowerCase "rule_9".toList
          "2024-01-01".toList
          ⟨" WWW.Example.com/ ".toList, "https://new.com".toList, "exact".toList⟩] =
        [exampleRule "exact"] ++ [stored] ∧
      stored.source =
        some (cleanSourceUrl asciiToLowerCase (trim " WWW.Example.com/ ".toList)) ∧
      startsWith (cleanSourceUrl asciiToLowerCase (trim " WWW.Example.com/ ".toList))
        "http://".toList = false ∧
      startsWith (cleanSourceUrl asciiToLowerCase (trim " WWW.Example.com/ ".toList))
        "https://".toList = false :=
  ⟨(cleanSourceUrl_normal_form asciiToLowerCase "https://www.Example.com/".toList
      simpleUrlHostname [] [] [] ⟨[], [], []⟩).2.2.1 asciiToLowerCase_no_upper,
   (cleanSourceUrl_normal_form asciiToLowerCase [] simpleUrlHostname "rule_9".toList
      "2024-01-01".toList [exampleRule "exact"]
      ⟨" WWW.Example.com/ ".toList, "https://new.com".toList, "exact".toList⟩).2.2.2
      asciiToLowerCase_no_new_scheme _ (by decide)⟩

/-! ## Creating a rule (options.js) -/

/-- C9, on the code: the source field `www.` passes `validateInputs`, Create pushes a
rule whose stored source is the empty string, and with match type `contains` that rule
is returned by `findMatchingRule` for a URL of any host. -/
theorem handleAddRule_stores_empty_source :
    validateInputs simpleUrlHostname "www.".toList "https://new.com".toList = true ∧
    cleanSourceUrl asciiToLowerCase "www.".toList = [] ∧
    handleAddRule asciiToLowerCase simpleUrlHostname "rule_9".toList "2024-01-01".toList []
        ⟨"www.".toList, "https://new.com".toList, "contains".toList⟩ =
      (.added, [{ id := "rule_9".toList, source := some [],
                  destination := some "https://new.com".toList,
                  matchType := some "contains".toList, enabled := true,
                  created := "2024-01-01".toList }]) ∧
    (findMatchingRule asciiToLowerCase simpleUrlHostname
        [{ id := "rule_9".toList, source := some [],
           destination := some "https://new.com".toList,
           matchType := some "contains".toList, enabled := true,
           created := "2024-01-01".toList }]
        "http://anything.org/x".toList).isSome = true := by
  decide

/-- C10, as stated, fails on a rule list that holds a rule without a `source`: the `find`
callback throws on it, so a valid input that duplicates a later rule is not rejected
as a duplicate (the handler throws), and a valid input that duplicates no rule is not
added either. -/
theorem handleAddRule_duplicate_counterexample :
    validateInputs simpleUrlHostname "old.com".toList "https://new.com".toList = true ∧
    handleAddRule asciiToLowerCase simpleUrlHostname "rule_9".toList "2024-01-01".toList
        [sourcelessRule, exampleRule "exact"]
        ⟨"old.com".toList, "https://new.com".toList, "exact".toList⟩ =
      (.threw .typeError, [sourcelessRule, exampleRule "exact"]) ∧
    handleAddRule asciiToLowerCase simpleUrlHostname "rule_9".toList "2024-01-01".toList
        [sourcelessRule]
        ⟨"old.com".toList, "https://new.com".toList, "exact".toList⟩ =
      (.threw .typeError, [sourcelessRule]) := by
  decide

/-- C10, amended: for every valid form input and every current rule list whose rules all
have a `source`, `handleAddRule` rejects the input as a duplicate and leaves the list
unchanged if and only if some existing rule has the same match type and a source
that, lowercased, equals the lowercased cleaned source; otherwise it pushes the new
rule at the end. -/
theorem handleAddRule_rejects_duplicates (toLowerCase : JsString → JsString)
    (urlHostname : JsString → Option JsString)
    (generatedId now : JsString) (currentRules : List Rule) (form : FormValues)
    (hvalid : validateInputs urlHostname (trim form.sourceUrl) (trim form.destinationUrl)
      = true)
    (hsrc : allHaveSource currentRules = true) :
    (handleAddRule toLowerCase urlHostname generatedId now currentRules form = (.duplicate,
        currentRules) ↔
      ∃ r ∈ currentRules, ∃ s, r.source = some s ∧
        toLowerCase s = toLowerCase (cleanSourceUrl toLowerCase (trim form.sourceUrl)) ∧
        r.matchType = some form.matchType) ∧
    ((¬ ∃ r ∈ currentRules, ∃ s, r.source = some s ∧
        toLowerCase s = toLowerCase (cleanSourceUrl toLowerCase (trim form.sourceUrl)) ∧
        r.matchType = some form.matchType) →
      handleAddRule toLowerCase urlHostname generatedId now currentRules form =
        (.added, currentRules ++ [newRuleOf toLowerCase generatedId now form])) := by
  rw [handleAddRule_of_valid _ _ _ _ _ hvalid hsrc]
  have hiff : (currentRules.find?
      (isDuplicateOf toLowerCase (cleanSourceUrl toLowerCase (trim form.sourceUrl))
          form.matchType)).isSome = true ↔
      ∃ r ∈ currentRules, ∃ s, r.source = some s ∧
        toLowerCase s = toLowerCase (cleanSourceUrl toLowerCase (trim form.sourceUrl)) ∧
        r.matchType = some form.matchType := by
    rw [List.find?_isSome]
    constructor
    · rintro ⟨r, hr, hd⟩
      exact ⟨r, hr, (isDuplicateOf_iff _ _ r).mp hd⟩
    · rintro ⟨r, hr, hd⟩
      exact ⟨r, hr, (isDuplicateOf_iff _ _ r).mpr hd⟩
  constructor
  · rw [← hiff]
    cases hf : (currentRules.find?
      (isDuplicateOf toLowerCase (cleanSourceUrl toLowerCase (trim form.sourceUrl))
          form.matchType)).isSome <;> simp
  · intro hno
    rw [← hiff] at hno
    rw [if_neg hno]

/-- Instance of C10 amended: with the `exact` rule for `old.com` in the list, the input
`OLD.com/` with match type `exact` is rejected as a duplicate and the list is unchanged,
and the same input with match type `contains` is pushed at the end. -/
theorem handleAddRule_rejects_duplicates_witness :
    handleAddRule asciiToLowerCase simpleUrlHostname "rule_9".toList "2024-01-01".toList
        [exampleRule "exact"]
        ⟨"OLD.com/".toList, "https://other.com".toList, "exact".toList⟩ =
      (.duplicate, [exampleRule "exact"]) ∧
    handleAddRule asciiToLowerCase simpleUrlHostname "rule_9".toList "2024-01-01".toList
        [exampleRule "exact"]
        ⟨"OLD.com/".toList, "https://other.com".toList, "contains".toList⟩ =
      (.added, [exampleRule "exact"] ++ [newRuleOf asciiToLowerCase "rule_9".toList
          "2024-01-01".toList
        ⟨"OLD.com/".toList, "https://other.com".toList, "contains".toList⟩]) :=
  ⟨(handleAddRule_rejects_duplicates asciiToLowerCase simpleUrlHostname "rule_9".toList
      "2024-01-01".toList
      [exampleRule "exact"] ⟨"OLD.com/".toList, "https://other.com".toList, "exact".toList⟩
      (by decide) (by decide)).1.mpr
      ⟨exampleRule "exact", by decide, "old.com".toList, by decide, by decide, by decide⟩,
   (handleAddRule_rejects_duplicates asciiToLowerCase simpleUrlHostname "rule_9".toList
       "2024-01-01".toList
      [exampleRule "exact"] ⟨"OLD.com/".toList, "https://other.com".toList, "contains".toList⟩
      (by decide) (by decide)).2
      (by
        rintro ⟨r, hr, s, _, _, hm⟩
        rw [List.mem_singleton] at hr
        subst hr
        exact absurd hm (by decide))⟩

/-! ## Helper lemmas: the matcher after an append, and the popup's matcher -/

/-- A rule returned by the loop is still returned when rules are added at the end. -/
theorem matchLoop_append {toLowerCase : JsString → JsString}
    (hostname : JsString) (rules extra : List Rule) (r : Rule)
    (h : matchLoop toLowerCase hostname rules = .ok (some r)) :
    matchLoop toLowerCase hostname (rules ++ extra) = .ok (some r) := by
  induction rules with
  | nil => simp [matchLoop] at h
  | cons rule rest ih =>
    rw [List.cons_append]
    cases hen : rule.enabled with
    | false =>
      rw [matchLoop_cons_disabled _ _ _ hen] at h ⊢
      exact ih h
    | true =>
      cases hs : rule.source with
      | none =>
        rw [matchLoop_cons_sourceless _ _ _ hen hs] at h
        simp at h
      | some source =>
        rw [matchLoop_cons_source _ _ _ source hen hs] at h ⊢
        cases hp : predicateHolds toLowerCase hostname rule with
        | true =>
          rw [hp] at h
          simpa using h
        | false =>
          rw [hp] at h
          simp only [Bool.false_eq_true, if_false] at h ⊢
          exact ih h

theorem findMatchingRule_append {toLowerCase : JsString → JsString}
    (urlHostname : JsString → Option JsString)
    (rules extra : List Rule) (U : JsString) (r : Rule)
    (h : findMatchingRule toLowerCase urlHostname rules U = some r) :
    findMatchingRule toLowerCase urlHostname (rules ++ extra) U = some r := by
  unfold findMatchingRule findMatchingRuleTry at h ⊢
  cases hp : urlHostname U with
  | none => simp [hp] at h
  | some hostname =>
    simp only [hp] at h ⊢
    cases hm : matchLoop toLowerCase (toLowerCase hostname) rules with
    | error e => simp [hm] at h
    | ok result =>
      simp only [hm] at h
      subst h
      rw [matchLoop_append _ _ _ _ hm]

theorem popup_matchLoop_eq {toLowerCase : JsString → JsString}
    (hostname : JsString) (rules : List Rule) :
    Popup.matchLoop toLowerCase hostname rules = matchLoop toLowerCase hostname rules := by
  induction rules with
  | nil => rfl
  | cons rule rest ih =>
    rw [Popup.matchLoop, matchLoop, ih]
    cases rule.enabled with
    | false => rfl
    | true =>
      cases rule.source with
      | none => rfl
      | some source =>
        simp only [Popup.switchReturns, Bool.not_true, Bool.false_eq_true, if_false]
        split_ifs <;> simp_all

/-! ## Create keeps the earlier rules (options.js, background.js) -/

/-- C11: a Create that succeeds leaves the previous list in place and puts exactly one
rule behind it, whose source is the cleaned source, whose destination and match type
are the submitted ones (the field values, the destination trimmed) and whose
`enabled` flag is true; every URL for which the matcher returned a rule before the
Create gets the same rule after it. -/
theorem handleAddRule_appends_one (toLowerCase : JsString → JsString)
    (urlHostname : JsString → Option JsString)
    (generatedId now : JsString) (currentRules rules' : List Rule) (form : FormValues)
    (h : handleAddRule toLowerCase urlHostname generatedId now currentRules form = (.added, rules'))
        :
    (∃ newRule, rules' = currentRules ++ [newRule] ∧
      newRule.source = some (cleanSourceUrl toLowerCase (trim form.sourceUrl)) ∧
      newRule.destination = some (trim form.destinationUrl) ∧
      newRule.matchType = some form.matchType ∧
      newRule.enabled = true) ∧
    (∀ (parser : JsString → Option JsString) (U : JsString) (r : Rule),
      findMatchingRule toLowerCase parser currentRules U = some r →
      findMatchingRule toLowerCase parser rules' U = some r) := by
  obtain ⟨_, hrules⟩ := handleAddRule_added _ _ _ _ _ _ h
  refine ⟨⟨newRuleOf toLowerCase generatedId now form, hrules, rfl, rfl, rfl, rfl⟩, ?_⟩
  intro parser U r hr
  rw [hrules]
  exact findMatchingRule_append _ _ _ _ _ hr

/-- Instance of C11: adding `sub.old.com` with match type `contains` behind the `exact`
rule for `old.com` gives a two-rule list, and `http://old.com/page` still gets the
`exact` rule. -/
theorem handleAddRule_appends_one_witness :
    (∃ newRule,
      [exampleRule "exact"] ++ [newRuleOf asciiToLowerCase "rule_9".toList "2024-01-01".toList
          ⟨"sub.old.com".toList, " https://other.com ".toList, "contains".toList⟩] =
        [exampleRule "exact"] ++ [newRule] ∧
      newRule.source = some (cleanSourceUrl asciiToLowerCase (trim "sub.old.com".toList)) ∧
      newRule.destination = some (trim " https://other.com ".toList) ∧
      newRule.matchType = some "contains".toList ∧
      newRule.enabled = true) ∧
    findMatchingRule asciiToLowerCase simpleUrlHostname
      ([exampleRule "exact"] ++ [newRuleOf asciiToLowerCase "rule_9".toList "2024-01-01".toList
          ⟨"sub.old.com".toList, " https://other.com ".toList, "contains".toList⟩])
      "http://old.com/page".toList = some (exampleRule "exact") :=
  ⟨(handleAddRule_appends_one asciiToLowerCase simpleUrlHostname "rule_9".toList
      "2024-01-01".toList
      [exampleRule "exact"] _
      ⟨"sub.old.com".toList, " https://other.com ".toList, "contains".toList⟩
      (by decide)).1,
   (handleAddRule_appends_one asciiToLowerCase simpleUrlHostname "rule_9".toList "2024-01-01".toList
      [exampleRule "exact"] _
      ⟨"sub.old.com".toList, " https://other.com ".toList, "contains".toList⟩
      (by decide)).2 simpleUrlHostname "http://old.com/page".toList (exampleRule "exact")
      (by decide)⟩

/-! ## The popup's matcher (popup.js) -/

/-- C17: for every URL and every rule list, the `findMatchingRule` of `popup.js` (a
`switch` on the match type) returns what the `findMatchingRule` of `background.js`
(an `if`/`else` chain) returns on the same list. -/
theorem popup_findMatchingRule_eq (toLowerCase : JsString → JsString)
    (urlHostname : JsString → Option JsString)
    (R : List Rule) (U : JsString) :
    Popup.findMatchingRule toLowerCase urlHostname R U = findMatchingRule toLowerCase urlHostname R
        U := by
  unfold Popup.findMatchingRule findMatchingRule findMatchingRuleTry
  cases urlHostname U with
  | none => rfl
  | some hostname => simp only [popup_matchLoop_eq]

/-! ## The cached enabled flag (background.js) -/

/-- C18, as stated, fails: when the key is removed the listener caches `undefined` and
`loadRedirectRules` caches true, so that with the `exact` rule for `old.com` the
request `http://old.com/page` is allowed under the listener's flag and redirected under
the loaded one; for a stored value of true or false the two cache the same flag. -/
theorem enabled_flag_differs_when_removed :
    onExtensionEnabledChanged (some true) = loadedExtensionEnabled (some true) ∧
    onExtensionEnabledChanged (some false) = loadedExtensionEnabled (some false) ∧
    onExtensionEnabledChanged none = none ∧
    loadedExtensionEnabled none = some true ∧
    handleWebRequest asciiToLowerCase simpleUrlHostname (onExtensionEnabledChanged none)
      [exampleRule "exact"] "http://old.com/page".toList = .allow ∧
    handleWebRequest asciiToLowerCase simpleUrlHostname (loadedExtensionEnabled none)
      [exampleRule "exact"] "http://old.com/page".toList =
      .redirect (some "https://new.com".toList) := by
  decide

/-- C18, amended: for every stored boolean value of `extensionEnabled` (true or false,
the values that the only writer, the popup's toggle, stores), the flag that the
storage-change listener caches equals the flag that `loadRedirectRules` computes from
a store with that value, and `handleWebRequest` answers every request alike under
the two. -/
theorem enabled_flag_agrees_on_booleans (v : Bool) :
    onExtensionEnabledChanged (some v) = loadedExtensionEnabled (some v) ∧
    ∀ (toLowerCase : JsString → JsString) (urlHostname : JsString → Option JsString)
      (R : List Rule) (U : JsString),
      handleWebRequest toLowerCase urlHostname (onExtensionEnabledChanged (some v)) R U =
        handleWebRequest toLowerCase urlHostname (loadedExtensionEnabled (some v)) R U := by
  have h : onExtensionEnabledChanged (some v) = loadedExtensionEnabled (some v) := by
    cases v <;> rfl
  exact ⟨h, fun _ _ _ _ => by rw [h]⟩

/-! ## Helper lemmas: import -/

theorem lowercasedSources_ok {toLowerCase : JsString → JsString}
    (rules : List Rule) (h : allHaveSource rules = true) :
    lowercasedSources toLowerCase rules = .ok (rules.filterMap fun r => r.source.map toLowerCase)
        := by
  induction rules with
  | nil => rfl
  | cons rule rest ih =>
    simp only [allHaveSource, List.all_cons, Bool.and_eq_true] at h
    obtain ⟨source, hs⟩ := Option.isSome_iff_exists.mp h.1
    rw [lowercasedSources]
    simp only [hs, ih h.2]
    simp [List.filterMap_cons, hs]

theorem contains_lowercased_iff {toLowerCase : JsString → JsString}
    (rules : List Rule) (x : JsString) :
    (rules.filterMap fun r => r.source.map toLowerCase).contains x =
      rules.any fun r => r.source.map toLowerCase = some x := by
  induction rules with
  | nil => rfl
  | cons rule rest ih =>
    cases hs : rule.source with
    | none =>
      simp only [List.filterMap_cons, hs, Option.map_none', List.any_cons, ih]
      simp
    | some source =>
      simp only [List.filterMap_cons, hs, Option.map_some', List.any_cons, ← ih]
      simp only [List.contains_cons, Option.some.injEq]
      congr 1
      by_cases hx : toLowerCase source = x
      · simp [hx]
      · have hx' : ¬ x = toLowerCase source := fun h => hx h.symm
        simp [hx, hx']

theorem filterNewRules_ok {toLowerCase : JsString → JsString}
    (currentRules : List Rule) (entries : List ImportedEntry)
    (h : entriesHaveSource entries = true) :
    filterNewRules toLowerCase (currentRules.filterMap fun r => r.source.map toLowerCase) entries =
      .ok (entries.filter (isNewFor toLowerCase currentRules)) := by
  induction entries with
  | nil => rfl
  | cons entry rest ih =>
    simp only [entriesHaveSource, List.all_cons, Bool.and_eq_true] at h
    obtain ⟨source, hs⟩ := Option.isSome_iff_exists.mp h.1
    cases entry with
    | none => simp [entrySource] at hs
    | some rule =>
      have hsrc : rule.source = some source := hs
      have hnew : isNewFor toLowerCase currentRules (some rule) =
          !currentRules.any
            (fun r => decide (r.source.map toLowerCase = some (toLowerCase source))) := by
        unfold isNewFor entrySource
        simp only [hsrc]
      rw [filterNewRules]
      simp only [hsrc, ih h.2, contains_lowercased_iff]
      rw [List.filter_cons, hnew]
      cases hany : currentRules.any
          (fun r => decide (r.source.map toLowerCase = some (toLowerCase source))) with
      | true => simp
      | false => simp

theorem mergeRules_ok {toLowerCase : JsString → JsString}
    (currentRules : List Rule) (imported : List ImportedEntry)
    (hC : allHaveSource currentRules = true) (hI : entriesHaveSource imported = true) :
    mergeRules toLowerCase currentRules imported =
      .ok (currentRules.map asImported ++ imported.filter (isNewFor toLowerCase currentRules)) := by
  unfold mergeRules
  simp only [lowercasedSources_ok _ hC, filterNewRules_ok _ _ hI]

/-- The defaults can be filled in when no element is `null`. -/
theorem fillDefaults_ok (generatedIds nowAt : Nat → JsString) (entries : List ImportedEntry)
    (h : ∀ e ∈ entries, e ≠ none) (i : Nat) :
    ∃ rules, fillDefaults generatedIds nowAt i entries = .ok rules := by
  induction entries generalizing i with
  | nil => exact ⟨[], rfl⟩
  | cons entry rest ih =>
    cases entry with
    | none => exact absurd rfl (h none (List.mem_cons_self _ _))
    | some rule =>
      obtain ⟨filled, hf⟩ := ih (fun e he => h e (List.mem_cons_of_mem _ he)) (i + 1)
      exact ⟨_, by rw [fillDefaults, hf]⟩

theorem isNewFor_ne_none {toLowerCase : JsString → JsString}
    (currentRules : List Rule) (entry : ImportedEntry)
    (h : isNewFor toLowerCase currentRules entry = true) : entry ≠ none := by
  intro hn
  subst hn
  simp [isNewFor, entrySource] at h

/-- Filling in the defaults of rules that were exported from the editor: every field
other than a missing or empty one is kept. -/
theorem fillDefaults_exported (generatedIds nowAt : Nat → JsString) (L : List Rule) (i : Nat) :
    ∃ L', fillDefaults generatedIds nowAt i (L.map asImported) = .ok L' ∧
      List.Forall₂ (fun r r' =>
        r'.source = r.source ∧ r'.destination = r.destination ∧ r'.enabled = r.enabled ∧
        r'.matchType = some (orElse r.matchType "exact".toList) ∧
        (r.created ≠ [] → r'.created = r.created) ∧ (r.id ≠ [] → r'.id = r.id)) L L' := by
  induction L generalizing i with
  | nil => exact ⟨[], rfl, List.Forall₂.nil⟩
  | cons rule rest ih =>
    obtain ⟨filled, hf, hall⟩ := ih (i + 1)
    refine ⟨_, by rw [List.map_cons, asImported, fillDefaults, hf], List.Forall₂.cons ?_ hall⟩
    refine ⟨rfl, rfl, ?_, rfl, ?_, ?_⟩
    · cases rule.enabled <;> rfl
    · intro hc
      simp [withDefaults, orElse, hc]
    · intro hc
      simp [withDefaults, orElse, hc]

/-- Rules that have a match type and a created stamp come back with the same fields. -/
theorem forall₂_sameFields (L L' : List Rule)
    (hall : List.Forall₂ (fun r r' =>
        r'.source = r.source ∧ r'.destination = r.destination ∧ r'.enabled = r.enabled ∧
        r'.matchType = some (orElse r.matchType "exact".toList) ∧
        (r.created ≠ [] → r'.created = r.created) ∧ (r.id ≠ [] → r'.id = r.id)) L L')
    (hf : ∀ r ∈ L, hasAllFields r = true) : List.Forall₂ sameFields L L' := by
  induction L generalizing L' with
  | nil =>
    cases hall
    exact List.Forall₂.nil
  | cons r l ih =>
    cases hall with
    | cons hhead htail =>
      refine List.Forall₂.cons ?_ (ih _ htail fun x hx => hf x (List.mem_cons_of_mem _ hx))
      obtain ⟨h1, h2, h3, h4, h5, _⟩ := hhead
      have hr := hf r (List.mem_cons_self _ _)
      simp only [hasAllFields, Bool.and_eq_true] at hr
      refine ⟨h1, h2, ?_, h3, ?_⟩
      · cases hm : r.matchType with
        | none => simp [hm] at hr
        | some m =>
          have hme : m.isEmpty = false := by simpa [hm] using hr.1
          rw [h4, hm]
          simp only [orElse, hme, Bool.false_eq_true, if_false]
      · apply h5
        intro hc
        have := hr.2
        simp [hc] at this

/-! ## Import and export (options.js) -/

/-- C12, as stated, fails: when an element of the imported array has no `source`, the
merge throws and nothing is appended, although another element is new for the
current list. -/
theorem merge_import_counterexample :
    isNewFor asciiToLowerCase [ruleFor "rule_1" "a.com"] (asImported (ruleFor "rule_7" "b.com")) =
        true ∧
    mergeRules asciiToLowerCase [ruleFor "rule_1" "a.com"]
      [some { id := none, source := none, destination := some "https://new.com".toList,
              matchType := none, enabled := none, created := none },
       asImported (ruleFor "rule_7" "b.com")] = .error .typeError ∧
    importRules asciiToLowerCase (fun _ => "rule_8".toList) (fun _ => "2024-02-02".toList)
      [ruleFor "rule_1" "a.com"]
      (some [some { id := none, source := none, destination := some "https://new.com".toList,
                    matchType := none, enabled := none, created := none },
             asImported (ruleFor "rule_7" "b.com")]) false =
      (.failed .typeError, .stored [ruleFor "rule_1" "a.com"]) :=
  ⟨by decide, rfl, by decide⟩

/-- C12, amended: for every current rule list whose rules all have a `source` and
every imported array whose elements are all objects with a `source`, the merge yields,
before the defaults are filled in, the current rules followed by exactly those
elements of the array, in their order, whose lowercased source is the lowercased
source of no current rule (the elements are not compared with each other), and the
merge then succeeds with the defaults filled into that list. -/
theorem mergeRules_appends_new (toLowerCase : JsString → JsString)
    (generatedIds nowAt : Nat → JsString)
    (C : List Rule) (I : List ImportedEntry)
    (hC : allHaveSource C = true) (hI : entriesHaveSource I = true) :
    mergeRules toLowerCase C I = .ok (C.map asImported ++ I.filter (isNewFor toLowerCase C)) ∧
    ∃ rules,
      fillDefaults generatedIds nowAt 0 (C.map asImported ++ I.filter (isNewFor toLowerCase C))
        = .ok rules ∧
      importRules toLowerCase generatedIds nowAt C (some I) false = (.imported, .stored rules) := by
  have hm : mergeRules toLowerCase C I =
      .ok (C.map asImported ++ I.filter (isNewFor toLowerCase C)) := mergeRules_ok C I hC hI
  refine ⟨hm, ?_⟩
  have hsome : ∀ e ∈ C.map asImported ++ I.filter (isNewFor toLowerCase C), e ≠ none := by
    intro e he
    rcases List.mem_append.mp he with h1 | h2
    · obtain ⟨r, _, hr⟩ := List.mem_map.mp h1
      rw [← hr]
      simp [asImported]
    · exact isNewFor_ne_none C e (List.mem_filter.mp h2).2
  obtain ⟨rules, hr⟩ := fillDefaults_ok generatedIds nowAt _ hsome 0
  refine ⟨rules, hr, ?_⟩
  simp only [importRules, hm, hr, Bool.false_eq_true, if_false]

/-- Instance of C12 amended, the example of the specification: the current list `a.com`
merged with the imported `a.com`, `b.com` is `a.com`, `b.com`; and an imported
`b.com`, `b.com` is appended twice. -/
theorem mergeRules_appends_new_witness :
    mergeRules asciiToLowerCase [ruleFor "rule_1" "a.com"]
        [asImported (ruleFor "rule_6" "a.com"), asImported (ruleFor "rule_7" "b.com")] =
      .ok [asImported (ruleFor "rule_1" "a.com"), asImported (ruleFor "rule_7" "b.com")] ∧
    mergeRules asciiToLowerCase [ruleFor "rule_1" "a.com"]
        [asImported (ruleFor "rule_6" "b.com"), asImported (ruleFor "rule_7" "b.com")] =
      .ok [asImported (ruleFor "rule_1" "a.com"), asImported (ruleFor "rule_6" "b.com"),
           asImported (ruleFor "rule_7" "b.com")] :=
  ⟨(mergeRules_appends_new asciiToLowerCase (fun _ => []) (fun _ => []) [ruleFor "rule_1" "a.com"]
      [asImported (ruleFor "rule_6" "a.com"), asImported (ruleFor "rule_7" "b.com")]
      (by decide) (by decide)).1.trans rfl,
   (mergeRules_appends_new asciiToLowerCase (fun _ => []) (fun _ => []) [ruleFor "rule_1" "a.com"]
      [asImported (ruleFor "rule_6" "b.com"), asImported (ruleFor "rule_7" "b.com")]
      (by decide) (by decide)).1.trans rfl⟩

/-- C13, as stated, fails: a rule without a `matchType` (older stored data) is exported
and comes back from a replacing import with the match type `exact`. -/
theorem export_import_counterexample :
    exportRules "2024-03-03".toList [legacyRule] =
      some { version := "1.0".toList, exportDate := "2024-03-03".toList,
             rules := [asImported legacyRule] } ∧
    importRules asciiToLowerCase (fun _ => "rule_8".toList) (fun _ => "2024-02-02".toList) []
        (some [asImported legacyRule]) true =
      (.imported, .stored [{ legacyRule with matchType := some "exact".toList }]) ∧
    legacyRule.matchType = none := by
  decide

/-- C13, amended: for every non-empty rule list held by the editor, importing the `rules`
of the exported document with the replace policy succeeds and yields a list of the
same length in which the rule at each position keeps the source, destination and
enabled flag of the rule at that position; keeps its match type when it is present and
not empty and gets the match type `exact` when it is missing or empty; keeps its
created stamp and its id when they are not empty and gets the time and the id
generated for that position when they are empty. When every rule of the list has a
match type and a created stamp that are not empty, the result equals the list field
for field apart from the id. -/
theorem export_import_roundtrip (toLowerCase : JsString → JsString)
    (generatedIds nowAt : Nat → JsString)
    (exportDate : JsString) (current L : List Rule) (hne : L ≠ []) :
    ∃ doc L',
      exportRules exportDate L = some doc ∧
      importRules toLowerCase generatedIds nowAt current (some doc.rules) true =
        (.imported, .stored L') ∧
      L'.length = L.length ∧
      (∀ k r r', L[k]? = some r → L'[k]? = some r' →
        r'.source = r.source ∧ r'.destination = r.destination ∧ r'.enabled = r.enabled ∧
        (∀ m, r.matchType = some m → m ≠ [] → r'.matchType = some m) ∧
        ((r.matchType = none ∨ r.matchType = some []) →
          r'.matchType = some "exact".toList) ∧
        (r.created ≠ [] → r'.created = r.created) ∧
        (r.created = [] → r'.created = nowAt k) ∧
        (r.id ≠ [] → r'.id = r.id) ∧ (r.id = [] → r'.id = generatedIds k)) ∧
      ((∀ r ∈ L, hasAllFields r = true) → List.Forall₂ sameFields L L') := by
  obtain ⟨L', hfill, hall⟩ := fillDefaults_exported generatedIds nowAt L 0
  have hpos : ∀ (M : List Rule) (i : Nat) (M' : List Rule),
      fillDefaults generatedIds nowAt i (M.map asImported) = .ok M' →
      M'.length = M.length ∧
      ∀ k r r', M[k]? = some r → M'[k]? = some r' →
        r'.source = r.source ∧ r'.destination = r.destination ∧ r'.enabled = r.enabled ∧
        (∀ m, r.matchType = some m → m ≠ [] → r'.matchType = some m) ∧
        ((r.matchType = none ∨ r.matchType = some []) →
          r'.matchType = some "exact".toList) ∧
        (r.created ≠ [] → r'.created = r.created) ∧
        (r.created = [] → r'.created = nowAt (i + k)) ∧
        (r.id ≠ [] → r'.id = r.id) ∧ (r.id = [] → r'.id = generatedIds (i + k)) := by
    intro M
    induction M with
    | nil =>
      intro i M' h
      simp only [List.map_nil, fillDefaults, Except.ok.injEq] at h
      subst h
      exact ⟨rfl, fun k r r' hr => by simp at hr⟩
    | cons rule rest ih =>
      intro i M' h
      rw [List.map_cons, asImported, fillDefaults] at h
      cases hf : fillDefaults generatedIds nowAt (i + 1) (rest.map asImported) with
      | error e => simp [hf] at h
      | ok filled =>
        simp only [hf, Except.ok.injEq] at h
        subst h
        obtain ⟨hlen, hat⟩ := ih (i + 1) filled hf
        refine ⟨by simp [hlen], ?_⟩
        intro k r r' hr hr'
        cases k with
        | zero =>
          simp only [List.getElem?_cons_zero, Option.some.injEq] at hr hr'
          subst hr
          subst hr'
          refine ⟨rfl, rfl, ?_, ?_, ?_, ?_, ?_, ?_, ?_⟩
          · cases rule.enabled <;> rfl
          · intro m hm hne
            have hme : m.isEmpty = false := by
              cases m with
              | nil => exact absurd rfl hne
              | cons a l => rfl
            simp [withDefaults, orElse, hm, hme]
          · rintro (hm | hm) <;> simp [withDefaults, orElse, hm]
          · intro hc
            simp [withDefaults, orElse, hc]
          · intro hc
            simp [withDefaults, orElse, hc]
          · intro hc
            simp [withDefaults, orElse, hc]
          · intro hc
            simp [withDefaults, orElse, hc]
        | succ k =>
          simp only [List.getElem?_cons_succ] at hr hr'
          have harith : i + (k + 1) = i + 1 + k := by omega
          rw [harith]
          exact hat k r r' hr hr'
  obtain ⟨hlen, hat⟩ := hpos L 0 L' hfill
  have hempty : L.isEmpty = false := by
    cases L with
    | nil => exact absurd rfl hne
    | cons a l => rfl
  refine ⟨{ version := "1.0".toList, exportDate := exportDate, rules := L.map asImported },
    L', ?_, ?_, hlen, ?_, ?_⟩
  · simp [exportRules, hempty]
  · simp only [importRules, hfill, if_true]
  · intro k r r' hr hr'
    have := hat k r r' hr hr'
    simpa using this
  · intro hfields
    exact forall₂_sameFields L L' hall hfields

/-- A rule whose created stamp and id are empty, for examples. -/
theorem export_import_defaults_example :
    importRules asciiToLowerCase exampleGeneratedId (fun _ => "2024-02-02".toList) []
        (some [asImported (ruleFor "rule_1" "a.com"),
               asImported { legacyRule with id := [], created := [] }]) true =
      (.imported, .stored [ruleFor "rule_1" "a.com",
        { legacyRule with id := exampleGeneratedId 1, matchType := some "exact".toList,
                          created := "2024-02-02".toList }]) := by
  decide

/-- Instance of C13 amended: the one-rule list with the `exact` rule for `old.com` is
exported, and the replacing import of the exported rules gives a one-rule list with
the same fields; evaluated, it is that list itself, id included. -/
theorem export_import_roundtrip_witness :
    (∃ doc L',
      exportRules "2024-03-03".toList [exampleRule "exact"] = some doc ∧
      importRules asciiToLowerCase (fun _ => "rule_8".toList) (fun _ => "2024-02-02".toList)
        [ruleFor "rule_1" "a.com"] (some doc.rules) true = (.imported, .stored L') ∧
      L'.length = 1 ∧
      List.Forall₂ sameFields [exampleRule "exact"] L') ∧
    importRules asciiToLowerCase (fun _ => "rule_8".toList) (fun _ => "2024-02-02".toList)
      [ruleFor "rule_1" "a.com"] (some [asImported (exampleRule "exact")]) true =
      (.imported, .stored [exampleRule "exact"]) := by
  obtain ⟨doc, L', h1, h2, h3, _, h5⟩ :=
    export_import_roundtrip asciiToLowerCase (fun _ => "rule_8".toList)
      (fun _ => "2024-02-02".toList) "2024-03-03".toList [ruleFor "rule_1" "a.com"]
      [exampleRule "exact"] (by decide)
  exact ⟨⟨doc, L', h1, h2, h3, h5 (by decide)⟩, by decide⟩

/-- A failed merge leaves the editor's list as it was, and so does a document without
an array `rules`. -/
theorem importRules_merge_failure_keeps_rules {toLowerCase : JsString → JsString}
    (generatedIds nowAt : Nat → JsString)
    (currentRules : List Rule) (imported : List ImportedEntry) (e : JsError)
    (h : mergeRules toLowerCase currentRules imported = .error e) :
    importRules toLowerCase generatedIds nowAt currentRules (some imported) false =
      (.failed e, .stored currentRules) ∧
    importRules toLowerCase generatedIds nowAt currentRules none false =
      (.invalidFormat, .stored currentRules) ∧
    importRules toLowerCase generatedIds nowAt currentRules none true =
      (.invalidFormat, .stored currentRules) := by
  refine ⟨?_, rfl, rfl⟩
  simp only [importRules, h, Bool.false_eq_true, if_false]

/-- C14, on the code: with the replace policy, an imported array that holds `null` makes
the import fail after `currentRules = importData.rules` was executed, so the editor's
list is the imported array and no longer the list before; the same document under the
merge policy, and a document without `rules`, leave the list as it was. -/
theorem import_replace_failure_overwrites :
    importRules asciiToLowerCase (fun _ => "rule_8".toList) (fun _ => "2024-02-02".toList)
        [exampleRule "exact"] (some [asImported (ruleFor "rule_7" "b.com"), none]) true =
      (.failed .typeError, .raw [asImported (ruleFor "rule_7" "b.com"), none]) ∧
    importRules asciiToLowerCase (fun _ => "rule_8".toList) (fun _ => "2024-02-02".toList)
        [exampleRule "exact"] (some [asImported (ruleFor "rule_7" "b.com"), none]) false =
      (.failed .typeError, .stored [exampleRule "exact"]) ∧
    importRules asciiToLowerCase (fun _ => "rule_8".toList) (fun _ => "2024-02-02".toList)
        [exampleRule "exact"] none true =
      (.invalidFormat, .stored [exampleRule "exact"]) := by
  decide

/-! ## Helper lemmas: quick-add -/

theorem popup_findExistingRule_eq_find {toLowerCase : JsString → JsString}
    (hostname : JsString) (rules : List Rule)
    (h : allHaveSource rules = true) :
    Popup.findExistingRule toLowerCase hostname rules = .ok (rules.find? (hasSourceOf toLowerCase
        hostname)) := by
  induction rules with
  | nil => rfl
  | cons rule rest ih =>
    simp only [allHaveSource, List.all_cons, Bool.and_eq_true] at h
    have hrest : allHaveSource rest = true := h.2
    obtain ⟨source, hs⟩ := Option.isSome_iff_exists.mp h.1
    rw [Popup.findExistingRule]
    simp only [hs]
    cases hd : hasSourceOf toLowerCase hostname rule with
    | true =>
      have hd' := hd
      simp only [hasSourceOf, hs, decide_eq_true_eq] at hd'
      rw [if_pos hd']
      simp [List.find?, hd]
    | false =>
      have hd' := hd
      simp only [hasSourceOf, hs, decide_eq_false_iff_not] at hd'
      rw [if_neg hd', ih hrest]
      simp [List.find?, hd]

theorem hasSourceOf_iff {toLowerCase : JsString → JsString} (hostname : JsString) (rule : Rule) :
    hasSourceOf toLowerCase hostname rule = true ↔
      ∃ s, rule.source = some s ∧ toLowerCase s = toLowerCase hostname := by
  unfold hasSourceOf
  cases hs : rule.source with
  | none => simp
  | some source => simp

/-- What `addQuickRule` does for a page URL that parses and a destination that is not
empty and parses, on a list whose rules all have a source. -/
theorem addQuickRule_of_valid {toLowerCase : JsString → JsString}
    (urlHostname : JsString → Option JsString)
    (generatedId now : JsString) (currentRules : List Rule) (url h d : JsString)
    (hurl : url ≠ []) (hparse : urlHostname url = some h)
    (hsrc : allHaveSource currentRules = true)
    (hd : d ≠ []) (hdp : (urlHostname d).isSome = true) :
    Popup.addQuickRule toLowerCase urlHostname generatedId now currentRules (some url) (some d) =
      if (currentRules.find? (hasSourceOf toLowerCase h)).isSome then (.duplicate, currentRules)
      else (.added, currentRules ++ [quickRuleOf generatedId now h d]) := by
  have hue : url.isEmpty = false := by
    cases url with
    | nil => exact absurd rfl hurl
    | cons a l => rfl
  have hde : d.isEmpty = false := by
    cases d with
    | nil => exact absurd rfl hd
    | cons a l => rfl
  have hdn : (urlHostname d).isNone = false := by
    cases hx : urlHostname d with
    | none => simp [hx] at hdp
    | some x => rfl
  unfold Popup.addQuickRule
  simp only [hue, Bool.false_eq_true, if_false, hparse,
    popup_findExistingRule_eq_find h currentRules hsrc]
  cases hf : currentRules.find? (hasSourceOf toLowerCase h) with
  | none => simp [hde, hdn, quickRuleOf]
  | some r => simp

/-! ## Quick-add (popup.js) -/

/-- C15, as stated, fails: with the `contains` rule for `old.com` in the list, quick-add
on `http://old.com/page` is rejected as a duplicate while Create with source `old.com`
and match type `exact` is accepted; and on `http://www.old.com/` quick-add stores the
source `www.old.com` while Create with that source stores `old.com`. -/
theorem addQuickRule_counterexample :
    Popup.addQuickRule asciiToLowerCase simpleUrlHostname "rule_9".toList "2024-01-01".toList
        [exampleRule "contains"] (some "http://old.com/page".toList)
        (some "https://other.com".toList) =
      (.duplicate, [exampleRule "contains"]) ∧
    handleAddRule asciiToLowerCase simpleUrlHostname "rule_9".toList "2024-01-01".toList
        [exampleRule "contains"]
        ⟨"old.com".toList, "https://other.com".toList, "exact".toList⟩ =
      (.added, [exampleRule "contains",
        quickRuleOf "rule_9".toList "2024-01-01".toList "old.com".toList
          "https://other.com".toList]) ∧
    Popup.addQuickRule asciiToLowerCase simpleUrlHostname "rule_9".toList "2024-01-01".toList []
        (some "http://www.old.com/".toList) (some "https://other.com".toList) =
      (.added, [quickRuleOf "rule_9".toList "2024-01-01".toList "www.old.com".toList
        "https://other.com".toList]) ∧
    handleAddRule asciiToLowerCase simpleUrlHostname "rule_9".toList "2024-01-01".toList []
        ⟨"www.old.com".toList, "https://other.com".toList, "exact".toList⟩ =
      (.added, [quickRuleOf "rule_9".toList "2024-01-01".toList "old.com".toList
        "https://other.com".toList]) := by
  decide

/-- C15, amended: for a page URL with hostname `h`, a destination that is not empty and
parses, and a rule list whose rules all have a `source`, `addQuickRule` rejects as a
duplicate exactly when some existing rule has the lowercased source `h` lowercased,
whatever its match type, and otherwise pushes at the end the enabled `exact` rule
whose source is `h` as the URL parser gives it. It does what Create does with source
`h` and match type `exact` whenever `h` and the destination are left unchanged by the
cleaning and trimming of Create, pass `validateInputs`, and every existing rule with
that source has the match type `exact`. -/
theorem addQuickRule_contract (toLowerCase : JsString → JsString)
    (urlHostname : JsString → Option JsString)
    (generatedId now : JsString) (currentRules : List Rule) (url h d : JsString)
    (hurl : url ≠ []) (hparse : urlHostname url = some h)
    (hsrc : allHaveSource currentRules = true)
    (hd : d ≠ []) (hdp : (urlHostname d).isSome = true) :
    (Popup.addQuickRule toLowerCase urlHostname generatedId now currentRules (some url) (some d) =
        (.duplicate, currentRules) ↔
      ∃ r ∈ currentRules, ∃ s, r.source = some s ∧ toLowerCase s = toLowerCase h) ∧
    ((¬ ∃ r ∈ currentRules, ∃ s, r.source = some s ∧ toLowerCase s = toLowerCase h) →
      Popup.addQuickRule toLowerCase urlHostname generatedId now currentRules (some url) (some d) =
        (.added, currentRules ++ [quickRuleOf generatedId now h d])) ∧
    (cleanSourceUrl toLowerCase (trim h) = h → trim d = d →
      validateInputs urlHostname (trim h) (trim d) = true →
      (∀ r ∈ currentRules, ∀ s, r.source = some s → toLowerCase s = toLowerCase h →
        r.matchType = some "exact".toList) →
      (Popup.addQuickRule toLowerCase urlHostname generatedId now currentRules (some url) (some
          d)).2 =
        (handleAddRule toLowerCase urlHostname generatedId now currentRules
          ⟨h, d, "exact".toList⟩).2 ∧
      ((Popup.addQuickRule toLowerCase urlHostname generatedId now currentRules (some url) (some
          d)).1
          = .duplicate ↔
        (handleAddRule toLowerCase urlHostname generatedId now currentRules
          ⟨h, d, "exact".toList⟩).1 = .duplicate)) := by
  rw [addQuickRule_of_valid _ _ _ _ _ _ _ hurl hparse hsrc hd hdp]
  have hiff : (currentRules.find? (hasSourceOf toLowerCase h)).isSome = true ↔
      ∃ r ∈ currentRules, ∃ s, r.source = some s ∧ toLowerCase s = toLowerCase h := by
    rw [List.find?_isSome]
    constructor
    · rintro ⟨r, hr, hx⟩
      exact ⟨r, hr, (hasSourceOf_iff _ r).mp hx⟩
    · rintro ⟨r, hr, hx⟩
      exact ⟨r, hr, (hasSourceOf_iff _ r).mpr hx⟩
  refine ⟨?_, ?_, ?_⟩
  · rw [← hiff]
    cases hf : (currentRules.find? (hasSourceOf toLowerCase h)).isSome <;> simp
  · intro hno
    rw [← hiff] at hno
    rw [if_neg hno]
  · intro hclean htrim hvalid hexact
    rw [handleAddRule_of_valid _ _ _ _ _ hvalid hsrc]
    simp only [hclean]
    have hsame : (currentRules.find? (isDuplicateOf toLowerCase h "exact".toList)).isSome =
        (currentRules.find? (hasSourceOf toLowerCase h)).isSome := by
      rw [Bool.eq_iff_iff, List.find?_isSome, List.find?_isSome]
      constructor
      · rintro ⟨r, hr, hx⟩
        obtain ⟨s, hs, hl, _⟩ := (isDuplicateOf_iff _ _ r).mp hx
        exact ⟨r, hr, (hasSourceOf_iff _ r).mpr ⟨s, hs, hl⟩⟩
      · rintro ⟨r, hr, hx⟩
        obtain ⟨s, hs, hl⟩ := (hasSourceOf_iff _ r).mp hx
        exact ⟨r, hr, (isDuplicateOf_iff _ _ r).mpr ⟨s, hs, hl, hexact r hr s hs hl⟩⟩
    rw [hsame]
    have hnew : newRuleOf toLowerCase generatedId now ⟨h, d, "exact".toList⟩ =
        quickRuleOf generatedId now h d := by
      simp only [newRuleOf, quickRuleOf, hclean, htrim]
    rw [hnew]
    cases hf : (currentRules.find? (hasSourceOf toLowerCase h)).isSome <;> simp

/-- Instance of C15 amended: with the `exact` rule for `old.com` in the list, quick-add on
`http://old.com/page` is rejected as a duplicate, and quick-add on
`http://sub.old.com/` pushes the `exact` rule for `sub.old.com` at the end. -/
theorem addQuickRule_contract_witness :
    Popup.addQuickRule asciiToLowerCase simpleUrlHostname "rule_9".toList "2024-01-01".toList
        [exampleRule "exact"] (some "http://old.com/page".toList)
        (some "https://other.com".toList) =
      (.duplicate, [exampleRule "exact"]) ∧
    Popup.addQuickRule asciiToLowerCase simpleUrlHostname "rule_9".toList "2024-01-01".toList
        [exampleRule "exact"] (some "http://sub.old.com/".toList)
        (some "https://other.com".toList) =
      (.added, [exampleRule "exact"] ++
        [quickRuleOf "rule_9".toList "2024-01-01".toList "sub.old.com".toList
          "https://other.com".toList]) :=
  ⟨(addQuickRule_contract asciiToLowerCase simpleUrlHostname "rule_9".toList "2024-01-01".toList
      [exampleRule "exact"] "http://old.com/page".toList "old.com".toList
      "https://other.com".toList (by decide) (by decide) (by decide) (by decide)
      (by decide)).1.mpr
      ⟨exampleRule "exact", by decide, "old.com".toList, by decide, by decide⟩,
   (addQuickRule_contract asciiToLowerCase simpleUrlHostname "rule_9".toList "2024-01-01".toList
      [exampleRule "exact"] "http://sub.old.com/".toList "sub.old.com".toList
      "https://other.com".toList (by decide) (by decide) (by decide) (by decide)
      (by decide)).2.1
      (by
        rintro ⟨r, hr, s, hs, hl⟩
        rw [List.mem_singleton] at hr
        subst hr
        have hs' : s = "old.com".toList := (Option.some.inj hs).symm
        subst hs'
        exact absurd hl (by decide))⟩

/-! ## Helper lemmas: ids -/

theorem ruleIds_filter_nodup (rules : List Rule) (p : Rule → Bool)
    (h : (ruleIds rules).Nodup) : (ruleIds (rules.filter p)).Nodup :=
  h.sublist (( List.filter_sublist rules).map _)

theorem ruleIds_toggleRule (ruleId : JsString) (enabled : Bool) (rules : List Rule) :
    ruleIds (toggleRule ruleId enabled rules) = ruleIds rules := by
  induction rules with
  | nil => rfl
  | cons rule rest ih =>
    unfold toggleRule
    split
    · rfl
    · simp only [ruleIds, List.map_cons] at ih ⊢
      rw [ih]

theorem presentIds_cons_sublist (entry : ImportedEntry) (rest : List ImportedEntry) :
    (presentIds rest).Sublist (presentIds (entry :: rest)) := by
  unfold presentIds
  rw [List.filterMap_cons]
  split
  · exact List.Sublist.refl _
  · exact List.sublist_cons_self _ _

/-- Every id of the filled-in list was brought along by an element or was generated for
a position that is not before the start. -/
theorem fillDefaults_id_origin (generatedIds nowAt : Nat → JsString)
    (entries : List ImportedEntry) (i : Nat) (rules : List Rule)
    (h : fillDefaults generatedIds nowAt i entries = .ok rules) :
    ∀ x ∈ ruleIds rules,
      x ∈ presentIds entries ∨ ∃ j, i ≤ j ∧ x = generatedIds j := by
  induction entries generalizing i rules with
  | nil =>
    simp only [fillDefaults, Except.ok.injEq] at h
    subst h
    intro x hx
    simp [ruleIds] at hx
  | cons entry rest ih =>
    cases entry with
    | none => simp [fillDefaults] at h
    | some rule =>
      rw [fillDefaults] at h
      cases hf : fillDefaults generatedIds nowAt (i + 1) rest with
      | error e => simp [hf] at h
      | ok filled =>
        simp only [hf, Except.ok.injEq] at h
        subst h
        intro x hx
        simp only [ruleIds, List.map_cons, List.mem_cons] at hx
        rcases hx with hx | hx
        · subst hx
          simp only [withDefaults, orElse, presentIds, List.filterMap_cons, presentId]
          cases hid : rule.id with
          | none => exact Or.inr ⟨i, Nat.le_refl _, rfl⟩
          | some id =>
            cases hempty : id.isEmpty with
            | true => exact Or.inr ⟨i, Nat.le_refl _, by simp [hempty]⟩
            | false =>
              left
              simp [hempty]
        · rcases ih (i + 1) filled hf x hx with h1 | ⟨j, hj, hxj⟩
          · exact Or.inl (( presentIds_cons_sublist (some rule) rest).subset h1)
          · exact Or.inr ⟨j, by omega, hxj⟩

/-- The filled-in list has pairwise distinct ids when the ids brought along are pairwise
distinct and the generated ids are fresh and pairwise distinct. -/
theorem fillDefaults_nodup (generatedIds nowAt : Nat → JsString)
    (hinj : Function.Injective generatedIds)
    (entries : List ImportedEntry) (i : Nat) (rules : List Rule)
    (h : fillDefaults generatedIds nowAt i entries = .ok rules)
    (hfresh : ∀ j, generatedIds j ∉ presentIds entries)
    (hnodup : (presentIds entries).Nodup) : (ruleIds rules).Nodup := by
  induction entries generalizing i rules with
  | nil =>
    simp only [fillDefaults, Except.ok.injEq] at h
    subst h
    exact List.nodup_nil
  | cons entry rest ih =>
    cases entry with
    | none => simp [fillDefaults] at h
    | some rule =>
      rw [fillDefaults] at h
      cases hf : fillDefaults generatedIds nowAt (i + 1) rest with
      | error e => simp [hf] at h
      | ok filled =>
        simp only [hf, Except.ok.injEq] at h
        subst h
        have hsub := presentIds_cons_sublist (some rule) rest
        have hrest : (ruleIds filled).Nodup :=
          ih (i + 1) filled hf (fun j hj => hfresh j (hsub.subset hj)) (hnodup.sublist hsub)
        have horigin := fillDefaults_id_origin generatedIds nowAt rest (i + 1) filled hf
        simp only [ruleIds, List.map_cons, List.nodup_cons]
        refine ⟨?_, hrest⟩
        intro hmem
        have hcases := horigin _ hmem
        simp only [withDefaults, orElse] at hcases
        simp only [presentIds, List.filterMap_cons, presentId] at hfresh hnodup
        cases hid : rule.id with
        | none =>
          simp only [hid] at hcases hfresh
          rcases hcases with h1 | ⟨j, hj, hxj⟩
          · exact hfresh i h1
          · have := hinj hxj
            omega
        | some id =>
          cases hempty : id.isEmpty with
          | true =>
            simp only [hid, hempty, if_true] at hcases hfresh
            rcases hcases with h1 | ⟨j, hj, hxj⟩
            · exact hfresh i h1
            · have := hinj hxj
              omega
          | false =>
            simp only [hid, hempty, Bool.false_eq_true, if_false, List.nodup_cons,
              List.mem_cons, not_or] at hcases hfresh hnodup
            rcases hcases with h1 | ⟨j, _, hxj⟩
            · exact hnodup.1 h1
            · exact (hfresh j).1 hxj.symm

/-! ## Ids stay distinct (options.js) -/

/-- C16, as stated, fails for Import: the ids of an imported document are kept as they
are. Merging a document whose rule for `b.com` has the id of the current rule for
`a.com` gives two rules with the same id, and so does replacing the list by a document
with two rules of one id; the current ids are distinct and no id is generated. -/
theorem ids_distinct_counterexample :
    (ruleIds [ruleFor "rule_1" "a.com"]).Nodup ∧
    importRules asciiToLowerCase (fun _ => "rule_8".toList) (fun _ => "2024-02-02".toList)
        [ruleFor "rule_1" "a.com"] (some [asImported (ruleFor "rule_1" "b.com")]) false =
      (.imported, .stored [ruleFor "rule_1" "a.com", ruleFor "rule_1" "b.com"]) ∧
    ¬ (ruleIds [ruleFor "rule_1" "a.com", ruleFor "rule_1" "b.com"]).Nodup ∧
    importRules asciiToLowerCase (fun _ => "rule_8".toList) (fun _ => "2024-02-02".toList)
        [ruleFor "rule_1" "a.com"]
        (some [asImported (ruleFor "rule_5" "b.com"), asImported (ruleFor "rule_5" "c.com")])
        true =
      (.imported, .stored [ruleFor "rule_5" "b.com", ruleFor "rule_5" "c.com"]) ∧
    ¬ (ruleIds [ruleFor "rule_5" "b.com", ruleFor "rule_5" "c.com"]).Nodup := by
  decide

/-- C16, amended: if the ids of the current rule list are pairwise distinct, they are
pairwise distinct after Create (when the generated id is not in the list), Edit,
Delete, Toggle enabled and Clear all; after an Import that succeeds, with either
policy, they are pairwise distinct when the ids that the elements of the array being
normalised bring along (the imported array under replace, the merged array under
merge) are pairwise distinct and the generated ids are pairwise distinct and not among
them. -/
theorem ids_stay_distinct (toLowerCase : JsString → JsString)
    (currentRules : List Rule) (hnodup : (ruleIds currentRules).Nodup) :
    (∀ (urlHostname : JsString → Option JsString) (generatedId now : JsString)
        (form : FormValues), generatedId ∉ ruleIds currentRules →
      (ruleIds
        (handleAddRule toLowerCase urlHostname generatedId now currentRules form).2).Nodup) ∧
    (∀ ruleId, (ruleIds (editRule ruleId currentRules).2).Nodup) ∧
    (∀ ruleId confirmed, (ruleIds (deleteRule ruleId confirmed currentRules)).Nodup) ∧
    (∀ ruleId enabled, (ruleIds (toggleRule ruleId enabled currentRules)).Nodup) ∧
    (∀ confirmed, (ruleIds (clearAllRules confirmed currentRules)).Nodup) ∧
    (∀ (generatedIds nowAt : Nat → JsString) (imported : List ImportedEntry)
        (confirmed : Bool) (rules' : List Rule),
      importRules toLowerCase generatedIds nowAt currentRules (some imported) confirmed =
        (.imported, .stored rules') →
      ∃ entries,
        (if confirmed then entries = imported
          else mergeRules toLowerCase currentRules imported = .ok entries) ∧
        fillDefaults generatedIds nowAt 0 entries = .ok rules' ∧
        (Function.Injective generatedIds → (∀ j, generatedIds j ∉ presentIds entries) →
          (presentIds entries).Nodup → (ruleIds rules').Nodup)) := by
  refine ⟨?_, ?_, ?_, ?_, ?_, ?_⟩
  · intro urlHostname generatedId now form hfresh
    unfold handleAddRule
    simp only []
    split
    · exact hnodup
    · split
      · exact hnodup
      · exact hnodup
      · simp only [ruleIds, List.map_append, List.map_cons, List.map_nil]
        rw [ List.nodup_append]
        refine ⟨hnodup, List.nodup_singleton _, ?_⟩
        intro x hx hy
        rw [List.mem_singleton] at hy
        subst hy
        exact hfresh hx
  · intro ruleId
    unfold editRule
    split
    · exact hnodup
    · exact ruleIds_filter_nodup _ _ hnodup
  · intro ruleId confirmed
    unfold deleteRule
    split
    · exact hnodup
    · split
      · exact ruleIds_filter_nodup _ _ hnodup
      · exact hnodup
  · intro ruleId enabled
    rw [ruleIds_toggleRule]
    exact hnodup
  · intro confirmed
    unfold clearAllRules
    split
    · exact hnodup
    · split
      · exact List.nodup_nil
      · exact hnodup
  · intro generatedIds nowAt imported confirmed rules' himp
    cases confirmed with
    | true =>
      simp only [importRules, if_true] at himp
      cases hf : fillDefaults generatedIds nowAt 0 imported with
      | error e => simp [hf] at himp
      | ok rules =>
        simp only [hf, Prod.mk.injEq, EditorRules.stored.injEq, true_and] at himp
        subst himp
        exact ⟨imported, by simp, hf,
          fun hinj hfresh hn => fillDefaults_nodup _ _ hinj _ _ _ hf hfresh hn⟩
    | false =>
      simp only [importRules, Bool.false_eq_true, if_false] at himp
      cases hm : mergeRules toLowerCase currentRules imported with
      | error e => simp [hm] at himp
      | ok merged =>
        simp only [hm] at himp
        cases hf : fillDefaults generatedIds nowAt 0 merged with
        | error e => simp [hf] at himp
        | ok rules =>
          simp only [hf, Prod.mk.injEq, EditorRules.stored.injEq, true_and] at himp
          subst himp
          exact ⟨merged, by simp, hf,
            fun hinj hfresh hn => fillDefaults_nodup _ _ hinj _ _ _ hf hfresh hn⟩

theorem exampleGeneratedId_injective : Function.Injective exampleGeneratedId := by
  intro i j h
  simp only [exampleGeneratedId, List.cons.injEq, true_and] at h
  have := congrArg List.length h
  simpa using this

/-- Instance of C16 amended on the list `rule_1`, `rule_2`: the ids stay distinct after a
Create with the id `rule_9`, after deleting `rule_1`, and after merging a document
whose rule for `c.com` has the id `rule_7`. -/
theorem ids_stay_distinct_witness :
    (ruleIds (handleAddRule asciiToLowerCase simpleUrlHostname "rule_9".toList "2024-01-01".toList
      [ruleFor "rule_1" "a.com", ruleFor "rule_2" "b.com"]
      ⟨"c.com".toList, "https://new.com".toList, "exact".toList⟩).2).Nodup ∧
    (ruleIds (deleteRule "rule_1".toList true
      [ruleFor "rule_1" "a.com", ruleFor "rule_2" "b.com"])).Nodup ∧
    ∃ entries,
      (if false = true then entries = [asImported (ruleFor "rule_7" "c.com")]
        else mergeRules asciiToLowerCase [ruleFor "rule_1" "a.com", ruleFor "rule_2" "b.com"]
          [asImported (ruleFor "rule_7" "c.com")] = .ok entries) ∧
      fillDefaults exampleGeneratedId (fun _ => "2024-02-02".toList) 0 entries =
        .ok [ruleFor "rule_1" "a.com", ruleFor "rule_2" "b.com", ruleFor "rule_7" "c.com"] ∧
      (Function.Injective exampleGeneratedId →
        (∀ j, exampleGeneratedId j ∉ presentIds entries) →
        (presentIds entries).Nodup →
        (ruleIds [ruleFor "rule_1" "a.com", ruleFor "rule_2" "b.com",
          ruleFor "rule_7" "c.com"]).Nodup) :=
  ⟨(ids_stay_distinct asciiToLowerCase [ruleFor "rule_1" "a.com", ruleFor "rule_2" "b.com"]
      (by decide)).1
      simpleUrlHostname "rule_9".toList "2024-01-01".toList
      ⟨"c.com".toList, "https://new.com".toList, "exact".toList⟩ (by decide),
   (ids_stay_distinct asciiToLowerCase [ruleFor "rule_1" "a.com", ruleFor "rule_2" "b.com"]
      (by decide)).2.2.1 "rule_1".toList true,
   (ids_stay_distinct asciiToLowerCase [ruleFor "rule_1" "a.com", ruleFor "rule_2" "b.com"]
      (by decide)).2.2.2.2.2 exampleGeneratedId (fun _ => "2024-02-02".toList)
      [asImported (ruleFor "rule_7" "c.com")] false
      [ruleFor "rule_1" "a.com", ruleFor "rule_2" "b.com", ruleFor "rule_7" "c.com"]
      (by decide)⟩

/-! ## Helper lemmas: edit -/

theorem find_id_of_mem (L : List Rule) (r : Rule) (hr : r ∈ L) (hn : (ruleIds L).Nodup) :
    (L.find? fun x => x.id = r.id) = some r := by
  induction L with
  | nil => simp at hr
  | cons x l ih =>
    simp only [ruleIds, List.map_cons, List.nodup_cons] at hn
    rcases List.mem_cons.mp hr with hx | hx
    · subst hx
      simp [List.find?]
    · have hne : x.id ≠ r.id := by
        intro hc
        exact hn.1 (hc ▸ List.mem_map_of_mem _ hx)
      simp only [List.find?, hne, decide_False]
      exact ih hx hn.2

theorem filter_id_eq_erase (L : List Rule) (r : Rule) (hr : r ∈ L)
    (hn : (ruleIds L).Nodup) : (L.filter fun x => x.id ≠ r.id) = L.erase r := by
  induction L with
  | nil => simp at hr
  | cons x l ih =>
    simp only [ruleIds, List.map_cons, List.nodup_cons] at hn
    by_cases hx : x = r
    · subst hx
      have hall : ∀ y ∈ l, decide (y.id ≠ x.id) = true := by
        intro y hy
        simp only [ne_eq, decide_not, Bool.not_eq_true', decide_eq_false_iff_not]
        intro hc
        exact hn.1 (hc ▸ List.mem_map_of_mem _ hy)
      rw [List.filter_cons]
      simp only [ne_eq, not_true_eq_false, decide_False, Bool.false_eq_true, if_false,
        List.erase_cons_head]
      exact List.filter_eq_self.mpr hall
    · have hmem : r ∈ l := by
        rcases List.mem_cons.mp hr with h1 | h1
        · exact absurd h1.symm hx
        · exact h1
      have hne : x.id ≠ r.id := by
        intro hc
        exact hn.1 (hc ▸ List.mem_map_of_mem _ hmem)
      rw [List.filter_cons]
      simp only [ne_eq, hne, not_false_eq_true, decide_True, if_true]
      rw [List.erase_cons_tail (by simpa using hx), ih hmem hn.2]

theorem nodup_of_ruleIds (L : List Rule) (hn : (ruleIds L).Nodup) : L.Nodup :=
  List.Nodup.of_map _ hn

theorem allHaveSource_erase (L : List Rule) (r : Rule) (h : allHaveSource L = true) :
    allHaveSource (L.erase r) = true := by
  simp only [allHaveSource, List.all_eq_true] at h ⊢
  exact fun x hx => h x (List.mem_of_mem_erase hx)

/-! ## Edit followed by resubmitting (options.js) -/

/-- C19, on the code: Create stores the source `ab` for the input `www.ab`; that source
is in normal form (cleaning leaves it as it is), but it is shorter than three
characters, so after `editRule` has removed the rule the unchanged form is rejected by
`validateInputs`: the rule is not re-added and the list is left without it. -/
theorem edit_resubmit_counterexample :
    handleAddRule asciiToLowerCase simpleUrlHostname "rule_4".toList
        "2024-01-01T00:00:00.000Z".toList []
        ⟨"www.ab".toList, "https://new.com".toList, "exact".toList⟩ =
      (.added, [ruleFor "rule_4" "ab"]) ∧
    cleanSourceUrl asciiToLowerCase "ab".toList = "ab".toList ∧
    editThenResubmit asciiToLowerCase simpleUrlHostname "rule_9".toList "2024-05-05".toList
        "rule_4".toList
        [ruleFor "rule_4" "ab"] = some (.invalid, []) := by
  decide

/-- Edit followed by resubmitting, where it works: for every rule list `L` whose ids are
pairwise distinct and whose rules all have a `source`, and every rule `r` of `L` with
source `s`, destination `d` and match type `m` such that `s` and `d` pass
`validateInputs` and are left unchanged by the trimming and cleaning of Create, and
such that no other rule of `L` has the lowercased source of `r` together with its
match type: `editRule(r.id)` followed by `handleAddRule` on the unchanged form is
accepted and yields `L` with `r` removed, the other rules unchanged and in order,
followed by `r` with a generated id, a new created stamp and `enabled = true`. -/
theorem edit_then_resubmit (toLowerCase : JsString → JsString)
    (urlHostname : JsString → Option JsString)
    (generatedId now : JsString) (L : List Rule) (r : Rule) (s d m : JsString)
    (hr : r ∈ L) (hn : (ruleIds L).Nodup) (hsrc : allHaveSource L = true)
    (hs : r.source = some s) (hd : r.destination = some d) (hm : r.matchType = some m)
    (hvalid : validateInputs urlHostname (trim s) (trim d) = true)
    (hclean : cleanSourceUrl toLowerCase (trim s) = s) (htrim : trim d = d)
    (hpairs : ∀ x ∈ L, isDuplicateOf toLowerCase s m x = true → x = r) :
    editThenResubmit toLowerCase urlHostname generatedId now r.id L =
      some (.added,
        L.erase r ++ [{ r with id := generatedId, enabled := true, created := now }]) := by
  have hedit : editRule r.id L = (some r, L.erase r) := by
    unfold editRule
    rw [find_id_of_mem L r hr hn, filter_id_eq_erase L r hr hn]
  have hform : formOf r = some ⟨s, d, m⟩ := by
    simp only [formOf, hs, hd, hm]
  have hnone : (L.erase r).find? (isDuplicateOf toLowerCase (cleanSourceUrl toLowerCase (trim s)) m)
      = none := by
    rw [hclean, List.find?_eq_none]
    intro x hx hdup
    have hxL : x ∈ L := List.mem_of_mem_erase hx
    have hxr : x = r := hpairs x hxL hdup
    have hnd : L.Nodup := nodup_of_ruleIds L hn
    exact ((hnd.mem_erase_iff).mp hx).1 hxr
  have hnew : newRuleOf toLowerCase generatedId now ⟨s, d, m⟩ =
      { r with id := generatedId, enabled := true, created := now } := by
    simp only [newRuleOf, hclean, htrim, hs, hd, hm]
  unfold editThenResubmit
  simp only [hedit, hform]
  rw [handleAddRule_of_valid urlHostname generatedId now (L.erase r) ⟨s, d, m⟩ hvalid
    (allHaveSource_erase L r hsrc)]
  simp only [hnone, Option.isSome_none, Bool.false_eq_true, if_false, hnew]

/-- Editing the disabled rule for `old.com` that stands first in a two-rule list and
resubmitting the form puts it, enabled and with a new id, behind the rule for
`b.com`. -/
theorem edit_then_resubmit_witness :
    editThenResubmit asciiToLowerCase simpleUrlHostname "rule_9".toList "2024-05-05".toList
        "rule_1".toList
        [{ exampleRule "contains" with enabled := false }, ruleFor "rule_2" "b.com"] =
      some (.added,
        [ruleFor "rule_2" "b.com",
         { exampleRule "contains" with
           id := "rule_9".toList, enabled := true, created := "2024-05-05".toList }]) :=
  (edit_then_resubmit asciiToLowerCase simpleUrlHostname "rule_9".toList "2024-05-05".toList
    [{ exampleRule "contains" with enabled := false }, ruleFor "rule_2" "b.com"]
    { exampleRule "contains" with enabled := false }
    "old.com".toList "https://new.com".toList "contains".toList
    (by decide) (by decide) (by decide) (by decide) (by decide) (by decide) (by decide)
    (by decide) (by decide) (by decide)).trans (by decide)

end SiteBlocker
